import Mathlib

set_option linter.unusedVariables false

/-!
Shallow embedding of the RustRoveri network-initializer core:
the topology validator (`validate.rs`) and the pure data part of the
network initializer (`init.rs`).  Node ids are `u8` in the source and are
used as direct indices into fixed-capacity bitsets of size `MAX_NODES`;
we model a `FixedBitSet` as its characteristic function, with `ones`
enumerating the set bits of indices below `MAX_NODES` in ascending order,
exactly as the Rust iterator does.  Drone packet-drop rates (`f32` in the
source, compared only against 0 and 1) are modelled as rationals.
Panics (`unwrap` on an empty iterator) are modelled with a default value
on branches that are unreachable for in-range configurations.
-/

def MAX_NODES : Nat := 256

/-- Model of `fixedbitset::FixedBitSet` with capacity `MAX_NODES`:
a characteristic function on node indices. -/
structure BitSet where
  mem : Nat → Bool

def BitSet.empty : BitSet := ⟨fun _ => false⟩

def BitSet.contains (s : BitSet) (x : Nat) : Bool := s.mem x

def BitSet.insert (s : BitSet) (x : Nat) : BitSet := ⟨fun j => j == x || s.mem j⟩

/-- Model of `FixedBitSet::ones()`: the set bits, in ascending index order. -/
def BitSet.ones (s : BitSet) : List Nat := (List.range MAX_NODES).filter s.mem

/-- Number of set bits (below the capacity); proof-layer helper. -/
def BitSet.count (s : BitSet) : Nat :=
  ((Finset.range MAX_NODES).filter (fun j => s.mem j = true)).card

instance : DecidableEq (Except String Unit) := fun a b =>
  match a, b with
  | .error x, .error y =>
    if h : x = y then isTrue (by rw [h])
    else isFalse (by intro hh; injection hh; exact h (by assumption))
  | .error _, .ok _ => isFalse (by intro hh; exact Except.noConfusion hh)
  | .ok _, .error _ => isFalse (by intro hh; exact Except.noConfusion hh)
  | .ok x, .ok y =>
    if h : x = y then isTrue (by rw [h])
    else isFalse (by intro hh; injection hh; exact h (by assumption))

/-- Model of `wg_2024::config::Drone`. -/
structure Drone where
  id : Nat
  connected_node_ids : List Nat
  pdr : Rat

/-- Model of `wg_2024::config::Client`. -/
structure Client where
  id : Nat
  connected_drone_ids : List Nat

/-- Model of `wg_2024::config::Server`. -/
structure Server where
  id : Nat
  connected_drone_ids : List Nat

/-- Model of `wg_2024::config::Config`. -/
structure Config where
  drone : List Drone
  client : List Client
  server : List Server

/-- In the source, node ids are `u8` values used as indices into arrays of
size `MAX_NODES`; every id and neighbor entry is below `MAX_NODES`. -/
def Config.Wf (c : Config) : Prop :=
  (∀ d ∈ c.drone, d.id < MAX_NODES ∧ ∀ x ∈ d.connected_node_ids, x < MAX_NODES) ∧
  (∀ cl ∈ c.client, cl.id < MAX_NODES ∧ ∀ x ∈ cl.connected_drone_ids, x < MAX_NODES) ∧
  (∀ s ∈ c.server, s.id < MAX_NODES ∧ ∀ x ∈ s.connected_drone_ids, x < MAX_NODES)

instance (c : Config) : Decidable c.Wf := by
  unfold Config.Wf; infer_instance

/-- Self-loop and duplicate-neighbor scan of `validate_drone`
(the loop over `drone.connected_node_ids` with a scratch bitset). -/
def drone_nbr_loop (droneId : Nat) : List Nat → BitSet → Except String Unit
  | [], _ => .ok ()
  | c :: rest, set =>
    if c = droneId then
      .error ("Drone [" ++ toString droneId ++ "] is connected to itself")
    else if set.contains c then
      .error ("Drone [" ++ toString droneId ++ "] has duplicate neighbor [" ++ toString c ++ "]")
    else
      drone_nbr_loop droneId rest (set.insert c)

/-- Model of `validate_drone`: PDR bounds check, then the neighbor scan. -/
def validate_drone (drone : Drone) : Except String Unit :=
  if drone.pdr < 0 ∨ drone.pdr > 1 then
    .error ("Invalid PDR for drone [" ++ toString drone.id ++ "]: " ++ toString drone.pdr)
  else
    drone_nbr_loop drone.id drone.connected_node_ids BitSet.empty

/-- Self-loop and duplicate-neighbor scan of `validate_client`. -/
def client_nbr_loop (clientId : Nat) : List Nat → BitSet → Except String Unit
  | [], _ => .ok ()
  | c :: rest, set =>
    if c = clientId then
      .error ("Client [" ++ toString clientId ++ "] is connected to itself")
    else if set.contains c then
      .error ("Client [" ++ toString clientId ++ "] has duplicate neighbor [" ++ toString c ++ "]")
    else
      client_nbr_loop clientId rest (set.insert c)

/-- Model of `validate_client`: degree bounds, then the neighbor scan. -/
def validate_client (client : Client) : Except String Unit :=
  if client.connected_drone_ids = [] then
    .error ("Client [" ++ toString client.id ++ "] is connected to 0 drones")
  else if 2 < client.connected_drone_ids.length then
    .error ("Client [" ++ toString client.id ++ "] has more than 2 neighbors")
  else
    client_nbr_loop client.id client.connected_drone_ids BitSet.empty

/-- Self-loop and duplicate-neighbor scan of `validate_server`. -/
def server_nbr_loop (serverId : Nat) : List Nat → BitSet → Except String Unit
  | [], _ => .ok ()
  | c :: rest, set =>
    if c = serverId then
      .error ("Server [" ++ toString serverId ++ "] is connected to itself")
    else if set.contains c then
      .error ("Server [" ++ toString serverId ++ "] has duplicate neighbor [" ++ toString c ++ "]")
    else
      server_nbr_loop serverId rest (set.insert c)

/-- Model of `validate_server`: degree bound, then the neighbor scan. -/
def validate_server (server : Server) : Except String Unit :=
  if server.connected_drone_ids.length < 2 then
    .error ("Server [" ++ toString server.id ++ "] has less than 2 neighbors")
  else
    server_nbr_loop server.id server.connected_drone_ids BitSet.empty

/-- Drone segment of `validate_config`: per-drone validation interleaved with
the duplicate-id insertion into `node_ids`, threading the node counter. -/
def validate_drones_loop : List Drone → BitSet → Nat → Except String (BitSet × Nat)
  | [], ids, n => .ok (ids, n)
  | d :: rest, ids, n =>
    match validate_drone d with
    | .error e => .error e
    | .ok () =>
      if ids.contains d.id then
        .error ("Duplicate node ID found: [" ++ toString d.id ++ "]")
      else
        validate_drones_loop rest (ids.insert d.id) (n + 1)

/-- Client segment of `validate_config`. -/
def validate_clients_loop : List Client → BitSet → Nat → Except String (BitSet × Nat)
  | [], ids, n => .ok (ids, n)
  | c :: rest, ids, n =>
    match validate_client c with
    | .error e => .error e
    | .ok () =>
      if ids.contains c.id then
        .error ("Duplicate node ID found: [" ++ toString c.id ++ "]")
      else
        validate_clients_loop rest (ids.insert c.id) (n + 1)

/-- Server segment of `validate_config`. -/
def validate_servers_loop : List Server → BitSet → Nat → Except String (BitSet × Nat)
  | [], ids, n => .ok (ids, n)
  | s :: rest, ids, n =>
    match validate_server s with
    | .error e => .error e
    | .ok () =>
      if ids.contains s.id then
        .error ("Duplicate node ID found: [" ++ toString s.id ++ "]")
      else
        validate_servers_loop rest (ids.insert s.id) (n + 1)

/-- Inner loop of `validate_all_neighbors_are_drones` over one client. -/
def client_nbrs_drones (droneIds : BitSet) (cid : Nat) : List Nat → Except String Unit
  | [] => .ok ()
  | id :: rest =>
    if !droneIds.contains id then
      .error ("Client [" ++ toString cid ++ "] is connected to [" ++ toString id ++
        "], which is not a drone")
    else
      client_nbrs_drones droneIds cid rest

/-- Inner loop of `validate_all_neighbors_are_drones` over one server. -/
def server_nbrs_drones (droneIds : BitSet) (sid : Nat) : List Nat → Except String Unit
  | [] => .ok ()
  | id :: rest =>
    if !droneIds.contains id then
      .error ("Server [" ++ toString sid ++ "] is connected to [" ++ toString id ++
        "], which is not a drone")
    else
      server_nbrs_drones droneIds sid rest

/-- Client half of `validate_all_neighbors_are_drones`. -/
def clients_drones_loop (droneIds : BitSet) : List Client → Except String Unit
  | [] => .ok ()
  | c :: rest =>
    match client_nbrs_drones droneIds c.id c.connected_drone_ids with
    | .error e => .error e
    | .ok () => clients_drones_loop droneIds rest

/-- Server half of `validate_all_neighbors_are_drones`. -/
def servers_drones_loop (droneIds : BitSet) : List Server → Except String Unit
  | [] => .ok ()
  | s :: rest =>
    match server_nbrs_drones droneIds s.id s.connected_drone_ids with
    | .error e => .error e
    | .ok () => servers_drones_loop droneIds rest

/-- Model of `validate_all_neighbors_are_drones`. -/
def validate_all_neighbors_are_drones (config : Config) (droneIds : BitSet) :
    Except String Unit :=
  match clients_drones_loop droneIds config.client with
  | .error e => .error e
  | .ok () => servers_drones_loop droneIds config.server

/-- Model of the `Graph` type of `validate.rs`: an array of bitsets,
one neighbor set per possible node id. -/
abbrev Graph := Nat → BitSet

/-- Insert the directed edge `a -> b` (`graph[a].insert(b)`). -/
def Graph.insertEdge (g : Graph) (a b : Nat) : Graph :=
  fun u => if u = a then (g a).insert b else g u

/-- Insert all edges from `a` to the members of `nbrs`. -/
def addEdgesFrom (g : Graph) (a : Nat) (nbrs : List Nat) : Graph :=
  nbrs.foldl (fun g2 b => g2.insertEdge a b) g

/-- Model of `compute_init_graph`: fold the declared adjacency of drones,
then clients, then servers into the edge bitsets. -/
def compute_init_graph (config : Config) : Graph :=
  let g0 : Graph := fun _ => BitSet.empty
  let g1 := config.drone.foldl (fun g d => addEdgesFrom g d.id d.connected_node_ids) g0
  let g2 := config.client.foldl (fun g c => addEdgesFrom g c.id c.connected_drone_ids) g1
  config.server.foldl (fun g s => addEdgesFrom g s.id s.connected_drone_ids) g2

/-- Inner loop of `validate_bidirectional_graph` over `graph[node].ones()`. -/
def bidir_inner (g : Graph) (node_ids : BitSet) (node : Nat) : List Nat → Except String Unit
  | [] => .ok ()
  | id :: rest =>
    if !node_ids.contains id then
      .error ("Node [" ++ toString node ++ "] has [" ++ toString id ++
        "] as neighbor, which does not exist in the topology.")
    else if !(g id).contains node then
      .error ("The topology is not bidirectional: node [" ++ toString id ++
        "] is reachable from [" ++ toString node ++ "], but not vice versa.")
    else
      bidir_inner g node_ids node rest

/-- Outer loop of `validate_bidirectional_graph` over `node_ids.ones()`. -/
def bidir_outer (g : Graph) (node_ids : BitSet) : List Nat → Except String Unit
  | [] => .ok ()
  | node :: rest =>
    match bidir_inner g node_ids node ((g node).ones) with
    | .error e => .error e
    | .ok () => bidir_outer g node_ids rest

/-- Model of `validate_bidirectional_graph`. -/
def validate_bidirectional_graph (g : Graph) (node_ids : BitSet) : Except String Unit :=
  bidir_outer g node_ids node_ids.ones

/-- Breadth-first loop shared by `validate_connected_graph` and
`validate_edges_clients_servers`, parametrized by the iteration list of
neighbors actually followed from a node (`graph[node].ones()`, with the
drone check additionally skipping non-drone ids).  The Rust loop runs
until the queue empties; each iteration pops one node and pushes its
not-yet-visited followed neighbors.  The `fuel` argument bounds the
number of iterations; `MAX_NODES` fuel is provably sufficient since each
iteration either consumes a queue entry or first visits a fresh id. -/
def bfs_loop (nbr : Nat → List Nat) : Nat → List Nat → BitSet → Nat → Nat
  | _, [], _, nVisited => nVisited
  | 0, _ :: _, _, nVisited => nVisited
  | fuel + 1, node :: rest, visited, nVisited =>
    let newNodes := (nbr node).filter (fun x => !visited.contains x)
    bfs_loop nbr fuel (rest ++ newNodes) (newNodes.foldl BitSet.insert visited) (nVisited + 1)

/-- Model of `validate_connected_graph`: BFS from the first declared node
over the full neighbor graph; success iff the visited count equals the
total node count.  `unwrap` on the first set bit is modelled with the
default `0` (unreachable: `n_nodes ≠ 0` implies a set bit exists for
in-range configurations). -/
def validate_connected_graph (g : Graph) (node_ids : BitSet) (n_nodes : Nat) :
    Except String Unit :=
  if n_nodes = 0 then .ok ()
  else
    let start := node_ids.ones.headD 0
    let n_visited :=
      bfs_loop (fun u => (g u).ones) MAX_NODES [start] (BitSet.empty.insert start) 0
    if n_visited = n_nodes then .ok ()
    else .error "The network topology is not connected"

/-- Model of `validate_edges_clients_servers`: BFS from the first drone,
skipping every neighbor that is not a drone; success iff the visited
count equals the drone count. -/
def validate_edges_clients_servers (g : Graph) (drone_ids : BitSet)
    (n_nodes n_drones : Nat) : Except String Unit :=
  if n_nodes = 0 ∨ n_drones = 0 then .ok ()
  else
    let start := drone_ids.ones.headD 0
    let n_visited :=
      bfs_loop (fun u => ((g u).ones.filter drone_ids.contains)) MAX_NODES
        [start] (BitSet.empty.insert start) 0
    if n_visited = n_drones then .ok ()
    else .error "Clients and servers are not all on the edge of the network"

/-- Model of `validate_config`: the three per-kind segments (each drone,
client, server validated and inserted into `node_ids` in declaration
order), then the cross-kind neighbor check, then the three graph checks.
The `assert_eq` on the node count in the source always holds and has no
observable effect, so it is not modelled. -/
def validate_config (config : Config) : Except String Unit :=
  match validate_drones_loop config.drone BitSet.empty 0 with
  | .error e => .error e
  | .ok (droneIds, nDrones) =>
    match validate_clients_loop config.client droneIds nDrones with
    | .error e => .error e
    | .ok (ids1, n1) =>
      match validate_servers_loop config.server ids1 n1 with
      | .error e => .error e
      | .ok (node_ids, n_nodes) =>
        match validate_all_neighbors_are_drones config droneIds with
        | .error e => .error e
        | .ok () =>
          let graph := compute_init_graph config
          match validate_bidirectional_graph graph node_ids with
          | .error e => .error e
          | .ok () =>
            match validate_connected_graph graph node_ids n_nodes with
            | .error e => .error e
            | .ok () =>
              validate_edges_clients_servers graph droneIds n_nodes nDrones

/-! ## Basic bitset lemmas -/

theorem BitSet.contains_empty (x : Nat) : BitSet.empty.contains x = false := rfl

theorem BitSet.contains_insert (s : BitSet) (x y : Nat) :
    (s.insert x).contains y = true ↔ (y = x ∨ s.contains y = true) := by
  simp [BitSet.insert, BitSet.contains]

theorem BitSet.mem_ones (s : BitSet) (y : Nat) :
    y ∈ s.ones ↔ s.contains y = true ∧ y < MAX_NODES := by
  simp [BitSet.ones, BitSet.contains, List.mem_filter, List.mem_range, and_comm]

theorem BitSet.ones_nodup (s : BitSet) : s.ones.Nodup :=
  List.Nodup.filter _ (List.nodup_range _)

theorem BitSet.count_le (s : BitSet) : s.count ≤ MAX_NODES := by
  calc ((Finset.range MAX_NODES).filter (fun j => s.mem j = true)).card
      ≤ (Finset.range MAX_NODES).card := Finset.card_filter_le _ _
    _ = MAX_NODES := Finset.card_range _

theorem BitSet.count_insert_singleton {start : Nat} (h : start < MAX_NODES) :
    (BitSet.empty.insert start).count = 1 := by
  have hset : (Finset.range MAX_NODES).filter
      (fun j => (BitSet.empty.insert start).mem j = true) = {start} := by
    ext j
    constructor
    · intro hj
      rw [Finset.mem_filter] at hj
      have hj2 := hj.2
      simp only [BitSet.insert, BitSet.empty, Bool.or_eq_true, beq_iff_eq] at hj2
      rcases hj2 with h1 | h1
      · simpa using h1
      · exact absurd h1 (by simp)
    · intro hj
      rw [Finset.mem_singleton] at hj
      subst hj
      rw [Finset.mem_filter]
      refine ⟨Finset.mem_range.mpr h, ?_⟩
      simp [BitSet.insert, BitSet.empty]
  rw [BitSet.count, hset, Finset.card_singleton]

theorem BitSet.contains_foldl_insert (l : List Nat) (s : BitSet) (y : Nat) :
    (l.foldl BitSet.insert s).contains y = true ↔ (s.contains y = true ∨ y ∈ l) := by
  induction l generalizing s with
  | nil => simp
  | cons a t ih =>
    simp only [List.foldl_cons, ih, BitSet.contains_insert, List.mem_cons]
    tauto

theorem BitSet.count_foldl_insert (l : List Nat) (s : BitSet)
    (hnd : l.Nodup) (hfresh : ∀ x ∈ l, s.contains x = false)
    (hlt : ∀ x ∈ l, x < MAX_NODES) :
    (l.foldl BitSet.insert s).count = s.count + l.length := by
  induction l generalizing s with
  | nil => simp
  | cons a t ih =>
    have ha : s.contains a = false := hfresh a (List.mem_cons_self a t)
    have halt : a < MAX_NODES := hlt a (List.mem_cons_self a t)
    have hcount : (s.insert a).count = s.count + 1 := by
      have hset : (Finset.range MAX_NODES).filter (fun j => (s.insert a).mem j = true) =
          Insert.insert a ((Finset.range MAX_NODES).filter (fun j => s.mem j = true)) := by
        ext j
        simp only [Finset.mem_filter, Finset.mem_range, Finset.mem_insert, BitSet.insert,
          Bool.or_eq_true, beq_iff_eq]
        constructor
        · rintro ⟨hj, hj2 | hj3⟩
          · exact Or.inl hj2
          · exact Or.inr ⟨hj, hj3⟩
        · rintro (rfl | ⟨hj, hj2⟩)
          · exact ⟨halt, Or.inl rfl⟩
          · exact ⟨hj, Or.inr hj2⟩
      have hnotmem : a ∉ (Finset.range MAX_NODES).filter (fun j => s.mem j = true) := by
        simp only [Finset.mem_filter, Finset.mem_range]
        rintro ⟨-, hmem⟩
        rw [show s.mem a = s.contains a from rfl, ha] at hmem
        exact Bool.false_ne_true hmem
      rw [BitSet.count, hset, Finset.card_insert_of_not_mem hnotmem]
      rfl
    rw [List.foldl_cons, ih (s.insert a) (List.Nodup.of_cons hnd) ?fresh ?lt, hcount,
      List.length_cons]
    case fresh =>
      intro x hx
      have hxa : x ≠ a := by
        intro hxa; subst hxa; exact (List.nodup_cons.mp hnd).1 hx
      have hxs : s.contains x = false := hfresh x (List.mem_cons_of_mem a hx)
      show (x == a || s.mem x) = false
      rw [Bool.or_eq_false_iff]
      exact ⟨beq_eq_false_iff_ne.mpr hxa, hxs⟩
    case lt => exact fun x hx => hlt x (List.mem_cons_of_mem a hx)
    omega

/-- When a bit-valued predicate is pointwise below another and both count
the same number of indices below the capacity, they agree below the
capacity. -/
theorem BitSet.eq_of_subset_of_count_eq {s t : BitSet}
    (hsub : ∀ x, s.contains x = true → t.contains x = true)
    (hcard : s.count = t.count) :
    ∀ x, x < MAX_NODES → (s.contains x = true ↔ t.contains x = true) := by
  have hss : (Finset.range MAX_NODES).filter (fun j => s.mem j = true) ⊆
      (Finset.range MAX_NODES).filter (fun j => t.mem j = true) := by
    intro j hj
    simp only [Finset.mem_filter] at hj ⊢
    exact ⟨hj.1, hsub j hj.2⟩
  have heq := Finset.eq_of_subset_of_card_le hss (le_of_eq hcard.symm)
  intro x hx
  constructor
  · exact hsub x
  · intro hxt
    have : x ∈ (Finset.range MAX_NODES).filter (fun j => t.mem j = true) := by
      simp only [Finset.mem_filter, Finset.mem_range]; exact ⟨hx, hxt⟩
    rw [← heq] at this
    simp only [Finset.mem_filter] at this
    exact this.2

/-! ## Breadth-first search: correctness of the shared loop -/

/-- One traversal step of the breadth-first loop with iteration lists
`nbr`: `v` is among the neighbors followed from `u`. -/
def NStep (nbr : Nat → List Nat) (u v : Nat) : Prop := v ∈ nbr u

/-- Reachability along traversal steps. -/
def NReach (nbr : Nat → List Nat) : Nat → Nat → Prop :=
  Relation.ReflTransGen (NStep nbr)

theorem bfs_loop_master (nbr : Nat → List Nat)
    (hb : ∀ u, ∀ v ∈ nbr u, v < MAX_NODES)
    (hnd : ∀ u, (nbr u).Nodup) :
    ∀ (fuel : Nat) (queue : List Nat) (visited : BitSet) (n : Nat),
    (∀ x ∈ queue, visited.contains x = true) →
    queue.Nodup →
    (∀ x, visited.contains x = true → x < MAX_NODES) →
    n + queue.length = visited.count →
    (MAX_NODES - visited.count) + queue.length ≤ fuel →
    (∀ u, visited.contains u = true →
      u ∈ queue ∨ ∀ v ∈ nbr u, visited.contains v = true) →
    ∃ V : BitSet,
      bfs_loop nbr fuel queue visited n = V.count ∧
      (∀ x, visited.contains x = true → V.contains x = true) ∧
      (∀ x, V.contains x = true →
        visited.contains x = true ∨ ∃ q ∈ queue, NReach nbr q x) ∧
      (∀ u, V.contains u = true → ∀ v ∈ nbr u, V.contains v = true) ∧
      (∀ x, V.contains x = true → x < MAX_NODES) := by
  intro fuel
  induction fuel with
  | zero =>
    intro queue visited n Ha Hb Hc Hd Hf Hg
    match queue with
    | [] =>
      refine ⟨visited, ?_, fun x hx => hx, fun x hx => Or.inl hx, ?_, Hc⟩
      · simpa using Hd
      · intro u hu v hv
        rcases Hg u hu with h | h
        · exact absurd h (List.not_mem_nil u)
        · exact h v hv
    | q :: rest => simp at Hf
  | succ fuel ih =>
    intro queue visited n Ha Hb Hc Hd Hf Hg
    match queue with
    | [] =>
      refine ⟨visited, ?_, fun x hx => hx, fun x hx => Or.inl hx, ?_, Hc⟩
      · simpa using Hd
      · intro u hu v hv
        rcases Hg u hu with h | h
        · exact absurd h (List.not_mem_nil u)
        · exact h v hv
    | node :: rest =>
      set newNodes := (nbr node).filter (fun x => !visited.contains x) with hnew
      have hnewmem : ∀ x, x ∈ newNodes ↔ x ∈ nbr node ∧ visited.contains x = false := by
        intro x
        simp [hnew, List.mem_filter]
      have hnewnd : newNodes.Nodup := (hnd node).filter _
      have hnewlt : ∀ x ∈ newNodes, x < MAX_NODES :=
        fun x hx => hb node x ((hnewmem x).mp hx).1
      have hfresh : ∀ x ∈ newNodes, visited.contains x = false :=
        fun x hx => ((hnewmem x).mp hx).2
      set visited' := newNodes.foldl BitSet.insert visited with hvisdef
      have hvis' : ∀ x, visited'.contains x = true ↔
          (visited.contains x = true ∨ x ∈ newNodes) :=
        fun x => BitSet.contains_foldl_insert newNodes visited x
      have hcount' : visited'.count = visited.count + newNodes.length :=
        BitSet.count_foldl_insert newNodes visited hnewnd hfresh hnewlt
      have hstep : bfs_loop nbr (fuel + 1) (node :: rest) visited n =
          bfs_loop nbr fuel (rest ++ newNodes) visited' (n + 1) := rfl
      have Ha' : ∀ x ∈ rest ++ newNodes, visited'.contains x = true := by
        intro x hx
        rcases List.mem_append.mp hx with h | h
        · exact (hvis' x).mpr (Or.inl (Ha x (List.mem_cons_of_mem node h)))
        · exact (hvis' x).mpr (Or.inr h)
      have Hb' : (rest ++ newNodes).Nodup := by
        refine List.Nodup.append (List.Nodup.of_cons Hb) hnewnd ?_
        intro x hx1 hx2
        have h1 : visited.contains x = true := Ha x (List.mem_cons_of_mem node hx1)
        have h2 : visited.contains x = false := hfresh x hx2
        rw [h1] at h2
        simp at h2
      have Hc' : ∀ x, visited'.contains x = true → x < MAX_NODES := by
        intro x hx
        rcases (hvis' x).mp hx with h | h
        · exact Hc x h
        · exact hnewlt x h
      have Hd' : (n + 1) + (rest ++ newNodes).length = visited'.count := by
        rw [List.length_append, hcount']
        have := Hd
        simp only [List.length_cons] at this
        omega
      have Hf' : (MAX_NODES - visited'.count) + (rest ++ newNodes).length ≤ fuel := by
        have hle : visited'.count ≤ MAX_NODES := BitSet.count_le visited'
        rw [List.length_append, hcount']
        simp only [List.length_cons] at Hf
        omega
      have Hg' : ∀ u, visited'.contains u = true →
          u ∈ rest ++ newNodes ∨ ∀ v ∈ nbr u, visited'.contains v = true := by
        intro u hu
        rcases (hvis' u).mp hu with h | h
        · rcases Hg u h with hq | hcl
          · rcases List.mem_cons.mp hq with rfl | hr
            · right
              intro v hv
              cases hcv : visited.contains v with
              | true => exact (hvis' v).mpr (Or.inl hcv)
              | false =>
                refine (hvis' v).mpr (Or.inr ?_)
                exact (hnewmem v).mpr ⟨hv, hcv⟩
            · exact Or.inl (List.mem_append_left _ hr)
          · exact Or.inr fun v hv => (hvis' v).mpr (Or.inl (hcl v hv))
        · exact Or.inl (List.mem_append_right _ h)
      obtain ⟨V, hres, hmono, hsound, hclosed, hbound⟩ :=
        ih (rest ++ newNodes) visited' (n + 1) Ha' Hb' Hc' Hd' Hf' Hg'
      refine ⟨V, hstep ▸ hres, ?_, ?_, hclosed, hbound⟩
      · exact fun x hx => hmono x ((hvis' x).mpr (Or.inl hx))
      · intro x hx
        rcases hsound x hx with h | ⟨q, hq, hreach⟩
        · rcases (hvis' x).mp h with h2 | h2
          · exact Or.inl h2
          · refine Or.inr ⟨node, List.mem_cons_self node rest, ?_⟩
            exact Relation.ReflTransGen.single ((hnewmem x).mp h2).1
        · rcases List.mem_append.mp hq with h2 | h2
          · exact Or.inr ⟨q, List.mem_cons_of_mem node h2, hreach⟩
          · refine Or.inr ⟨node, List.mem_cons_self node rest, ?_⟩
            exact Relation.ReflTransGen.trans
              (Relation.ReflTransGen.single ((hnewmem q).mp h2).1) hreach

/-- Specification of the breadth-first loop as run by the validator:
starting with one in-range node visited and queued, the returned count is
the number of nodes reachable from the start along followed neighbors. -/
theorem bfs_from_start (nbr : Nat → List Nat)
    (hb : ∀ u, ∀ v ∈ nbr u, v < MAX_NODES)
    (hnd : ∀ u, (nbr u).Nodup)
    (start : Nat) (hs : start < MAX_NODES) :
    ∃ V : BitSet,
      bfs_loop nbr MAX_NODES [start] (BitSet.empty.insert start) 0 = V.count ∧
      (∀ x, V.contains x = true ↔ NReach nbr start x) ∧
      (∀ x, V.contains x = true → x < MAX_NODES) := by
  have hvis0 : ∀ x, (BitSet.empty.insert start).contains x = true ↔ x = start := by
    intro x
    simp [BitSet.insert, BitSet.empty, BitSet.contains]
  have hcount0 : (BitSet.empty.insert start).count = 1 :=
    BitSet.count_insert_singleton hs
  have hmax : 1 ≤ MAX_NODES := by
    rw [show MAX_NODES = 256 from rfl]; omega
  obtain ⟨V, hres, hmono, hsound, hclosed, hbound⟩ :=
    bfs_loop_master nbr hb hnd MAX_NODES [start] (BitSet.empty.insert start) 0
      (by intro x hx; rcases List.mem_singleton.mp hx with rfl; exact (hvis0 _).mpr rfl)
      (List.nodup_singleton start)
      (by intro x hx; rw [hvis0 x] at hx; subst hx; exact hs)
      (by simp [hcount0])
      (by simp only [List.length_singleton, hcount0]; omega)
      (by intro u hu; exact Or.inl (by rw [hvis0 u] at hu; subst hu; exact List.mem_singleton_self u))
  refine ⟨V, hres, ?_, hbound⟩
  intro x
  constructor
  · intro hx
    rcases hsound x hx with h | ⟨q, hq, hreach⟩
    · rw [hvis0 x] at h; subst h; exact Relation.ReflTransGen.refl
    · rcases List.mem_singleton.mp hq with rfl; exact hreach
  · intro hreach
    induction hreach with
    | refl => exact hmono start ((hvis0 start).mpr rfl)
    | tail hab hbc ih2 => exact hclosed _ ih2 _ hbc

/-! ## Characterizations of the validator stages -/

theorem BitSet.count_insert_fresh (s : BitSet) (x : Nat)
    (hx : s.contains x = false) (hlt : x < MAX_NODES) :
    (s.insert x).count = s.count + 1 := by
  simpa using BitSet.count_foldl_insert [x] s (by simp)
    (by intro y hy; rcases List.mem_singleton.mp hy with rfl; exact hx)
    (by intro y hy; rcases List.mem_singleton.mp hy with rfl; exact hlt)

/-- The node id declared by an entry of any kind. -/
def Declared (cfg : Config) (x : Nat) : Prop :=
  (∃ d ∈ cfg.drone, d.id = x) ∨ (∃ c ∈ cfg.client, c.id = x) ∨ (∃ s ∈ cfg.server, s.id = x)

/-- The node id is declared by a drone entry. -/
def IsDroneId (cfg : Config) (x : Nat) : Prop := ∃ d ∈ cfg.drone, d.id = x

/-- A directed edge declared in the configuration: some entry with id `u`
lists `v` among its neighbors. -/
def DeclEdge (cfg : Config) (u v : Nat) : Prop :=
  (∃ d ∈ cfg.drone, d.id = u ∧ v ∈ d.connected_node_ids) ∨
  (∃ c ∈ cfg.client, c.id = u ∧ v ∈ c.connected_drone_ids) ∨
  (∃ s ∈ cfg.server, s.id = u ∧ v ∈ s.connected_drone_ids)

instance (cfg : Config) (x : Nat) : Decidable (Declared cfg x) := by
  unfold Declared; infer_instance

instance (cfg : Config) (x : Nat) : Decidable (IsDroneId cfg x) := by
  unfold IsDroneId; infer_instance

instance (cfg : Config) (u v : Nat) : Decidable (DeclEdge cfg u v) := by
  unfold DeclEdge; infer_instance

theorem validate_drones_loop_ok (l : List Drone) :
    ∀ (ids : BitSet) (n : Nat) (ids' : BitSet) (n' : Nat),
    validate_drones_loop l ids n = .ok (ids', n') →
    (∀ x, ids'.contains x = true ↔ (ids.contains x = true ∨ ∃ d ∈ l, d.id = x)) ∧
    n' = n + l.length := by
  induction l with
  | nil =>
    intro ids n ids' n' h
    simp only [validate_drones_loop] at h
    injection h with h
    injection h with h1 h2
    subst h1; subst h2
    exact ⟨by simp, by simp⟩
  | cons d rest ih =>
    intro ids n ids' n' h
    simp only [validate_drones_loop] at h
    rcases hv : validate_drone d with e | u
    · rw [hv] at h; exact Except.noConfusion h
    · rw [hv] at h
      rcases u
      rcases hdup : ids.contains d.id with _ | _ <;> rw [hdup] at h
      · simp only [Bool.false_eq_true, if_false] at h
        obtain ⟨hmem, hn⟩ := ih (ids.insert d.id) (n + 1) ids' n' h
        constructor
        · intro x
          rw [hmem x, BitSet.contains_insert]
          simp only [List.mem_cons]
          constructor
          · rintro ((rfl | hx) | ⟨d2, hd2, hid⟩)
            · exact Or.inr ⟨d, Or.inl rfl, rfl⟩
            · exact Or.inl hx
            · exact Or.inr ⟨d2, Or.inr hd2, hid⟩
          · rintro (hx | ⟨d2, (rfl | hd2), hid⟩)
            · exact Or.inl (Or.inr hx)
            · exact Or.inl (Or.inl hid.symm)
            · exact Or.inr ⟨d2, hd2, hid⟩
        · rw [hn, List.length_cons]; omega
      · simp only [if_true] at h; exact Except.noConfusion h

theorem validate_clients_loop_ok (l : List Client) :
    ∀ (ids : BitSet) (n : Nat) (ids' : BitSet) (n' : Nat),
    validate_clients_loop l ids n = .ok (ids', n') →
    (∀ x, ids'.contains x = true ↔ (ids.contains x = true ∨ ∃ c ∈ l, c.id = x)) ∧
    n' = n + l.length := by
  induction l with
  | nil =>
    intro ids n ids' n' h
    simp only [validate_clients_loop] at h
    injection h with h
    injection h with h1 h2
    subst h1; subst h2
    exact ⟨by simp, by simp⟩
  | cons c rest ih =>
    intro ids n ids' n' h
    simp only [validate_clients_loop] at h
    rcases hv : validate_client c with e | u
    · rw [hv] at h; exact Except.noConfusion h
    · rw [hv] at h
      rcases u
      rcases hdup : ids.contains c.id with _ | _ <;> rw [hdup] at h
      · simp only [Bool.false_eq_true, if_false] at h
        obtain ⟨hmem, hn⟩ := ih (ids.insert c.id) (n + 1) ids' n' h
        constructor
        · intro x
          rw [hmem x, BitSet.contains_insert]
          simp only [List.mem_cons]
          constructor
          · rintro ((rfl | hx) | ⟨c2, hc2, hid⟩)
            · exact Or.inr ⟨c, Or.inl rfl, rfl⟩
            · exact Or.inl hx
            · exact Or.inr ⟨c2, Or.inr hc2, hid⟩
          · rintro (hx | ⟨c2, (rfl | hc2), hid⟩)
            · exact Or.inl (Or.inr hx)
            · exact Or.inl (Or.inl hid.symm)
            · exact Or.inr ⟨c2, hc2, hid⟩
        · rw [hn, List.length_cons]; omega
      · simp only [if_true] at h; exact Except.noConfusion h

theorem validate_servers_loop_ok (l : List Server) :
    ∀ (ids : BitSet) (n : Nat) (ids' : BitSet) (n' : Nat),
    validate_servers_loop l ids n = .ok (ids', n') →
    (∀ x, ids'.contains x = true ↔ (ids.contains x = true ∨ ∃ s ∈ l, s.id = x)) ∧
    n' = n + l.length := by
  induction l with
  | nil =>
    intro ids n ids' n' h
    simp only [validate_servers_loop] at h
    injection h with h
    injection h with h1 h2
    subst h1; subst h2
    exact ⟨by simp, by simp⟩
  | cons s rest ih =>
    intro ids n ids' n' h
    simp only [validate_servers_loop] at h
    rcases hv : validate_server s with e | u
    · rw [hv] at h; exact Except.noConfusion h
    · rw [hv] at h
      rcases u
      rcases hdup : ids.contains s.id with _ | _ <;> rw [hdup] at h
      · simp only [Bool.false_eq_true, if_false] at h
        obtain ⟨hmem, hn⟩ := ih (ids.insert s.id) (n + 1) ids' n' h
        constructor
        · intro x
          rw [hmem x, BitSet.contains_insert]
          simp only [List.mem_cons]
          constructor
          · rintro ((rfl | hx) | ⟨s2, hs2, hid⟩)
            · exact Or.inr ⟨s, Or.inl rfl, rfl⟩
            · exact Or.inl hx
            · exact Or.inr ⟨s2, Or.inr hs2, hid⟩
          · rintro (hx | ⟨s2, (rfl | hs2), hid⟩)
            · exact Or.inl (Or.inr hx)
            · exact Or.inl (Or.inl hid.symm)
            · exact Or.inr ⟨s2, hs2, hid⟩
        · rw [hn, List.length_cons]; omega
      · simp only [if_true] at h; exact Except.noConfusion h

theorem bidir_inner_ok (g : Graph) (node_ids : BitSet) (node : Nat) (l : List Nat) :
    bidir_inner g node_ids node l = .ok () ↔
    ∀ id ∈ l, node_ids.contains id = true ∧ (g id).contains node = true := by
  induction l with
  | nil => simp [bidir_inner]
  | cons a rest ih =>
    simp only [bidir_inner]
    rcases h1 : node_ids.contains a with _ | _
    · simp only [h1, Bool.not_false, if_true]
      constructor
      · intro h; exact Except.noConfusion h
      · intro h
        have := (h a (List.mem_cons_self a rest)).1
        rw [h1] at this; exact Bool.noConfusion this
    · simp only [h1, Bool.not_true, Bool.false_eq_true, if_false]
      rcases h2 : (g a).contains node with _ | _
      · simp only [h2, Bool.not_false, if_true]
        constructor
        · intro h; exact Except.noConfusion h
        · intro h
          have := (h a (List.mem_cons_self a rest)).2
          rw [h2] at this; exact Bool.noConfusion this
      · simp only [h2, Bool.not_true, Bool.false_eq_true, if_false, ih]
        constructor
        · intro h id hid
          rcases List.mem_cons.mp hid with rfl | hid2
          · exact ⟨h1, h2⟩
          · exact h id hid2
        · intro h id hid
          exact h id (List.mem_cons_of_mem a hid)

theorem bidir_outer_ok (g : Graph) (node_ids : BitSet) (l : List Nat) :
    bidir_outer g node_ids l = .ok () ↔
    ∀ node ∈ l, bidir_inner g node_ids node ((g node).ones) = .ok () := by
  induction l with
  | nil => simp [bidir_outer]
  | cons a rest ih =>
    simp only [bidir_outer]
    rcases h1 : bidir_inner g node_ids a ((g a).ones) with e | u
    · constructor
      · intro h; exact Except.noConfusion h
      · intro h
        have := h a (List.mem_cons_self a rest)
        rw [h1] at this; exact Except.noConfusion this
    · rcases u
      rw [ih]
      constructor
      · intro h node hnode
        rcases List.mem_cons.mp hnode with rfl | h2
        · exact h1
        · exact h node h2
      · intro h node hnode
        exact h node (List.mem_cons_of_mem a hnode)

/-- The bidirectionality stage succeeds exactly when every edge out of a
declared node points back at a declared node that lists it in return. -/
theorem validate_bidirectional_graph_ok (g : Graph) (node_ids : BitSet) :
    validate_bidirectional_graph g node_ids = .ok () ↔
    ∀ node, node_ids.contains node = true → node < MAX_NODES →
      ∀ id, (g node).contains id = true → id < MAX_NODES →
        node_ids.contains id = true ∧ (g id).contains node = true := by
  rw [validate_bidirectional_graph, bidir_outer_ok]
  constructor
  · intro h node hnode hnlt id hid hidlt
    have hmem : node ∈ node_ids.ones := (BitSet.mem_ones _ _).mpr ⟨hnode, hnlt⟩
    have := (bidir_inner_ok g node_ids node ((g node).ones)).mp (h node hmem)
    exact this id ((BitSet.mem_ones _ _).mpr ⟨hid, hidlt⟩)
  · intro h node hnode
    rw [bidir_inner_ok]
    intro id hid
    obtain ⟨hn1, hn2⟩ := (BitSet.mem_ones _ _).mp hnode
    obtain ⟨hi1, hi2⟩ := (BitSet.mem_ones _ _).mp hid
    exact h node hn1 hn2 id hi1 hi2

theorem Graph.insertEdge_contains (g : Graph) (a b u v : Nat) :
    ((g.insertEdge a b) u).contains v = true ↔
    ((g u).contains v = true ∨ (u = a ∧ v = b)) := by
  unfold Graph.insertEdge
  by_cases h : u = a
  · subst h
    simp [BitSet.contains_insert]
    tauto
  · simp [h]

theorem addEdgesFrom_contains (l : List Nat) :
    ∀ (g : Graph) (a u v : Nat),
    ((addEdgesFrom g a l) u).contains v = true ↔
    ((g u).contains v = true ∨ (u = a ∧ v ∈ l)) := by
  induction l with
  | nil => intro g a u v; simp [addEdgesFrom]
  | cons b rest ih =>
    intro g a u v
    simp only [addEdgesFrom, List.foldl_cons] at *
    rw [ih (g.insertEdge a b) a u v, Graph.insertEdge_contains]
    simp only [List.mem_cons]
    constructor
    · rintro ((h | ⟨rfl, rfl⟩) | ⟨rfl, h⟩)
      · exact Or.inl h
      · exact Or.inr ⟨rfl, Or.inl rfl⟩
      · exact Or.inr ⟨rfl, Or.inr h⟩
    · rintro (h | ⟨rfl, (rfl | h)⟩)
      · exact Or.inl (Or.inl h)
      · exact Or.inl (Or.inr ⟨rfl, rfl⟩)
      · exact Or.inr ⟨rfl, h⟩

theorem foldl_addEdges_contains {α : Type} (idf : α → Nat) (nbrf : α → List Nat)
    (l : List α) :
    ∀ (g : Graph) (u v : Nat),
    ((l.foldl (fun g2 x => addEdgesFrom g2 (idf x) (nbrf x)) g) u).contains v = true ↔
    ((g u).contains v = true ∨ ∃ x ∈ l, idf x = u ∧ v ∈ nbrf x) := by
  induction l with
  | nil => intro g u v; simp
  | cons a rest ih =>
    intro g u v
    simp only [List.foldl_cons]
    rw [ih, addEdgesFrom_contains]
    simp only [List.mem_cons]
    constructor
    · rintro ((h | ⟨rfl, h⟩) | ⟨x, hx, hid, hv⟩)
      · exact Or.inl h
      · exact Or.inr ⟨a, Or.inl rfl, rfl, h⟩
      · exact Or.inr ⟨x, Or.inr hx, hid, hv⟩
    · rintro (h | ⟨x, (rfl | hx), hid, hv⟩)
      · exact Or.inl (Or.inl h)
      · exact Or.inl (Or.inr ⟨hid.symm, hv⟩)
      · exact Or.inr ⟨x, hx, hid, hv⟩

/-- Membership in the adjacency bitsets built by `compute_init_graph` is
exactly declared-edge membership. -/
theorem compute_init_graph_contains (cfg : Config) (u v : Nat) :
    ((compute_init_graph cfg) u).contains v = true ↔ DeclEdge cfg u v := by
  unfold compute_init_graph DeclEdge
  rw [foldl_addEdges_contains (fun s : Server => s.id) (fun s => s.connected_drone_ids),
    foldl_addEdges_contains (fun c : Client => c.id) (fun c => c.connected_drone_ids),
    foldl_addEdges_contains (fun d : Drone => d.id) (fun d => d.connected_node_ids)]
  simp only [BitSet.contains_empty]
  constructor
  · rintro (((h | h) | h) | h)
    · exact Bool.noConfusion h
    · exact Or.inl h
    · exact Or.inr (Or.inl h)
    · exact Or.inr (Or.inr h)
  · rintro (h | h | h)
    · exact Or.inl (Or.inl (Or.inr h))
    · exact Or.inl (Or.inr h)
    · exact Or.inr h

/-- Under the id-range invariant, every bit set in the built graph is an
in-range node id. -/
theorem compute_init_graph_lt (cfg : Config) (hwf : cfg.Wf) (u v : Nat)
    (h : ((compute_init_graph cfg) u).contains v = true) :
    u < MAX_NODES ∧ v < MAX_NODES := by
  rw [compute_init_graph_contains] at h
  obtain ⟨hd, hc, hs⟩ := hwf
  rcases h with ⟨d, hdl, rfl, hv⟩ | ⟨c, hcl, rfl, hv⟩ | ⟨s, hsl, rfl, hv⟩
  · exact ⟨(hd d hdl).1, (hd d hdl).2 v hv⟩
  · exact ⟨(hc c hcl).1, (hc c hcl).2 v hv⟩
  · exact ⟨(hs s hsl).1, (hs s hsl).2 v hv⟩

/-- Inversion of `validate_config` success into the success of each stage. -/
theorem validate_config_ok_elim (cfg : Config) (h : validate_config cfg = .ok ()) :
    ∃ (droneIds : BitSet) (nDrones : Nat) (ids1 : BitSet) (n1 : Nat)
      (node_ids : BitSet) (n_nodes : Nat),
      validate_drones_loop cfg.drone BitSet.empty 0 = .ok (droneIds, nDrones) ∧
      validate_clients_loop cfg.client droneIds nDrones = .ok (ids1, n1) ∧
      validate_servers_loop cfg.server ids1 n1 = .ok (node_ids, n_nodes) ∧
      validate_all_neighbors_are_drones cfg droneIds = .ok () ∧
      validate_bidirectional_graph (compute_init_graph cfg) node_ids = .ok () ∧
      validate_connected_graph (compute_init_graph cfg) node_ids n_nodes = .ok () ∧
      validate_edges_clients_servers (compute_init_graph cfg) droneIds n_nodes nDrones
        = .ok () := by
  unfold validate_config at h
  repeat' split at h
  any_goals exact Except.noConfusion h
  dsimp only at h
  repeat' split at h
  any_goals exact Except.noConfusion h
  rename_i x1 droneIds nDrones h1 x2 ids1 n1 h2 x3 node_ids n_nodes h3 x4 h4 x5 h5 x6 h6
  exact ⟨droneIds, nDrones, ids1, n1, node_ids, n_nodes, h1, h2, h3, h4, h5, h6, h⟩

theorem validate_drones_loop_count (l : List Drone) :
    ∀ (ids : BitSet) (n : Nat) (ids' : BitSet) (n' : Nat),
    validate_drones_loop l ids n = .ok (ids', n') →
    (∀ d ∈ l, d.id < MAX_NODES) →
    n = ids.count → (∀ x, ids.contains x = true → x < MAX_NODES) →
    n' = ids'.count ∧ (∀ x, ids'.contains x = true → x < MAX_NODES) := by
  induction l with
  | nil =>
    intro ids n ids' n' h hlt hcnt hbnd
    simp only [validate_drones_loop] at h
    injection h with h
    injection h with h1 h2
    subst h1; subst h2
    exact ⟨hcnt, hbnd⟩
  | cons d rest ih =>
    intro ids n ids' n' h hlt hcnt hbnd
    simp only [validate_drones_loop] at h
    rcases hv : validate_drone d with e | u
    · rw [hv] at h; exact Except.noConfusion h
    · rw [hv] at h
      rcases u
      rcases hdup : ids.contains d.id with _ | _ <;> rw [hdup] at h
      · simp only [Bool.false_eq_true, if_false] at h
        have hdlt : d.id < MAX_NODES := hlt d (List.mem_cons_self d rest)
        refine ih (ids.insert d.id) (n + 1) ids' n' h
          (fun d2 hd2 => hlt d2 (List.mem_cons_of_mem d hd2)) ?_ ?_
        · rw [BitSet.count_insert_fresh ids d.id hdup hdlt, hcnt]
        · intro x hx
          rcases (BitSet.contains_insert ids d.id x).mp hx with rfl | hx2
          · exact hdlt
          · exact hbnd x hx2
      · simp only [if_true] at h; exact Except.noConfusion h

theorem validate_clients_loop_count (l : List Client) :
    ∀ (ids : BitSet) (n : Nat) (ids' : BitSet) (n' : Nat),
    validate_clients_loop l ids n = .ok (ids', n') →
    (∀ c ∈ l, c.id < MAX_NODES) →
    n = ids.count → (∀ x, ids.contains x = true → x < MAX_NODES) →
    n' = ids'.count ∧ (∀ x, ids'.contains x = true → x < MAX_NODES) := by
  induction l with
  | nil =>
    intro ids n ids' n' h hlt hcnt hbnd
    simp only [validate_clients_loop] at h
    injection h with h
    injection h with h1 h2
    subst h1; subst h2
    exact ⟨hcnt, hbnd⟩
  | cons c rest ih =>
    intro ids n ids' n' h hlt hcnt hbnd
    simp only [validate_clients_loop] at h
    rcases hv : validate_client c with e | u
    · rw [hv] at h; exact Except.noConfusion h
    · rw [hv] at h
      rcases u
      rcases hdup : ids.contains c.id with _ | _ <;> rw [hdup] at h
      · simp only [Bool.false_eq_true, if_false] at h
        have hdlt : c.id < MAX_NODES := hlt c (List.mem_cons_self c rest)
        refine ih (ids.insert c.id) (n + 1) ids' n' h
          (fun c2 hc2 => hlt c2 (List.mem_cons_of_mem c hc2)) ?_ ?_
        · rw [BitSet.count_insert_fresh ids c.id hdup hdlt, hcnt]
        · intro x hx
          rcases (BitSet.contains_insert ids c.id x).mp hx with rfl | hx2
          · exact hdlt
          · exact hbnd x hx2
      · simp only [if_true] at h; exact Except.noConfusion h

theorem validate_servers_loop_count (l : List Server) :
    ∀ (ids : BitSet) (n : Nat) (ids' : BitSet) (n' : Nat),
    validate_servers_loop l ids n = .ok (ids', n') →
    (∀ s ∈ l, s.id < MAX_NODES) →
    n = ids.count → (∀ x, ids.contains x = true → x < MAX_NODES) →
    n' = ids'.count ∧ (∀ x, ids'.contains x = true → x < MAX_NODES) := by
  induction l with
  | nil =>
    intro ids n ids' n' h hlt hcnt hbnd
    simp only [validate_servers_loop] at h
    injection h with h
    injection h with h1 h2
    subst h1; subst h2
    exact ⟨hcnt, hbnd⟩
  | cons s rest ih =>
    intro ids n ids' n' h hlt hcnt hbnd
    simp only [validate_servers_loop] at h
    rcases hv : validate_server s with e | u
    · rw [hv] at h; exact Except.noConfusion h
    · rw [hv] at h
      rcases u
      rcases hdup : ids.contains s.id with _ | _ <;> rw [hdup] at h
      · simp only [Bool.false_eq_true, if_false] at h
        have hdlt : s.id < MAX_NODES := hlt s (List.mem_cons_self s rest)
        refine ih (ids.insert s.id) (n + 1) ids' n' h
          (fun s2 hs2 => hlt s2 (List.mem_cons_of_mem s hs2)) ?_ ?_
        · rw [BitSet.count_insert_fresh ids s.id hdup hdlt, hcnt]
        · intro x hx
          rcases (BitSet.contains_insert ids s.id x).mp hx with rfl | hx2
          · exact hdlt
          · exact hbnd x hx2
      · simp only [if_true] at h; exact Except.noConfusion h

theorem BitSet.count_empty : BitSet.empty.count = 0 := by
  rw [BitSet.count]
  rw [Finset.card_eq_zero, Finset.filter_eq_empty_iff]
  intro j _
  simp [BitSet.empty]

theorem BitSet.headD_ones_lt (s : BitSet) : s.ones.headD 0 < MAX_NODES := by
  cases h : s.ones with
  | nil =>
    show 0 < MAX_NODES
    rw [show MAX_NODES = 256 from rfl]
    omega
  | cons a t =>
    have ha : a ∈ s.ones := h ▸ List.mem_cons_self a t
    show a < MAX_NODES
    exact ((BitSet.mem_ones s a).mp ha).2

theorem BitSet.headD_ones_mem (s : BitSet) (h : s.ones ≠ []) : s.ones.headD 0 ∈ s.ones := by
  cases hh : s.ones with
  | nil => exact absurd hh h
  | cons a t => exact List.mem_cons_self a t

theorem BitSet.ones_ne_nil_of_count_ne_zero (s : BitSet) (h : s.count ≠ 0) :
    s.ones ≠ [] := by
  intro hnil
  apply h
  rw [BitSet.count, Finset.card_eq_zero, Finset.filter_eq_empty_iff]
  intro j hj hmem
  have hjm : j ∈ s.ones := (BitSet.mem_ones s j).mpr ⟨hmem, Finset.mem_range.mp hj⟩
  rw [hnil] at hjm
  exact List.not_mem_nil j hjm

/-- Specification of the global-connectivity check for a nonzero node
count: the BFS count is the number of nodes reachable from the first
declared node, the check accepts exactly when that count matches
`n_nodes`, and otherwise it produces the fixed error message. -/
theorem validate_connected_graph_spec (g : Graph) (node_ids : BitSet) (n_nodes : Nat)
    (hn : ¬n_nodes = 0) :
    ∃ V : BitSet,
      (∀ x, V.contains x = true ↔
        NReach (fun u => (g u).ones) (node_ids.ones.headD 0) x) ∧
      (∀ x, V.contains x = true → x < MAX_NODES) ∧
      (V.count = n_nodes → validate_connected_graph g node_ids n_nodes = .ok ()) ∧
      (V.count ≠ n_nodes → validate_connected_graph g node_ids n_nodes =
        .error "The network topology is not connected") := by
  obtain ⟨V, hres, hiff, hbound⟩ :=
    bfs_from_start (fun u => (g u).ones)
      (fun u v hv => ((BitSet.mem_ones _ _).mp hv).2)
      (fun u => BitSet.ones_nodup _)
      (node_ids.ones.headD 0) (BitSet.headD_ones_lt node_ids)
  refine ⟨V, hiff, hbound, ?_, ?_⟩
  · intro hv
    unfold validate_connected_graph
    rw [if_neg hn]
    dsimp only
    rw [hres, if_pos hv]
  · intro hv
    unfold validate_connected_graph
    rw [if_neg hn]
    dsimp only
    rw [hres, if_neg hv]

/-- Specification of the drone-subgraph check for nonzero node and drone
counts: the BFS count is the number of nodes reachable from the first
drone along edges whose target is a drone, the check accepts exactly when
that count matches `n_drones`, and otherwise it produces the fixed error
message. -/
theorem validate_edges_clients_servers_spec (g : Graph) (drone_ids : BitSet)
    (n_nodes n_drones : Nat) (hn : ¬(n_nodes = 0 ∨ n_drones = 0)) :
    ∃ V : BitSet,
      (∀ x, V.contains x = true ↔
        NReach (fun u => (g u).ones.filter drone_ids.contains)
          (drone_ids.ones.headD 0) x) ∧
      (∀ x, V.contains x = true → x < MAX_NODES) ∧
      (V.count = n_drones →
        validate_edges_clients_servers g drone_ids n_nodes n_drones = .ok ()) ∧
      (V.count ≠ n_drones →
        validate_edges_clients_servers g drone_ids n_nodes n_drones =
          .error "Clients and servers are not all on the edge of the network") := by
  obtain ⟨V, hres, hiff, hbound⟩ :=
    bfs_from_start (fun u => (g u).ones.filter drone_ids.contains)
      (fun u v hv => ((BitSet.mem_ones _ _).mp (List.mem_of_mem_filter hv)).2)
      (fun u => List.Nodup.filter _ (BitSet.ones_nodup _))
      (drone_ids.ones.headD 0) (BitSet.headD_ones_lt drone_ids)
  refine ⟨V, hiff, hbound, ?_, ?_⟩
  · intro hv
    unfold validate_edges_clients_servers
    rw [if_neg hn]
    dsimp only
    rw [hres, if_pos hv]
  · intro hv
    unfold validate_edges_clients_servers
    rw [if_neg hn]
    dsimp only
    rw [hres, if_neg hv]

/-! ## Semantic reachability relations -/

/-- Reachability over the adjacency bitsets (full neighbor graph). -/
def GraphReach (g : Graph) (a b : Nat) : Prop :=
  Relation.ReflTransGen (fun u v => (g u).contains v = true) a b

/-- One step of the drone-subgraph traversal: a declared edge whose
target is a drone (the check never steps into a non-drone id). -/
def DroneStep (cfg : Config) (u v : Nat) : Prop :=
  DeclEdge cfg u v ∧ IsDroneId cfg v

/-- Reachability restricted to drone-targeted edges. -/
def DroneReach (cfg : Config) (a b : Nat) : Prop :=
  Relation.ReflTransGen (DroneStep cfg) a b

theorem nreach_ones_iff_graphReach (g : Graph)
    (hwf : ∀ u v, (g u).contains v = true → v < MAX_NODES) (a b : Nat) :
    NReach (fun u => (g u).ones) a b ↔ GraphReach g a b := by
  constructor
  · exact Relation.ReflTransGen.mono (fun u v hv => ((BitSet.mem_ones _ _).mp hv).1)
  · exact Relation.ReflTransGen.mono (fun u v hv => (BitSet.mem_ones _ _).mpr ⟨hv, hwf u v hv⟩)

theorem droneNbr_mem (g : Graph) (droneIds : BitSet) (u v : Nat) :
    v ∈ (g u).ones.filter droneIds.contains ↔
    ((g u).contains v = true ∧ v < MAX_NODES ∧ droneIds.contains v = true) := by
  rw [List.mem_filter, BitSet.mem_ones]
  tauto

/-- Along a drone-restricted traversal starting at a drone, every node
reached is a drone, and by bidirectionality the traversal can be
reversed. -/
theorem nreach_drone_symm (g : Graph) (droneIds node_ids : BitSet)
    (hsub : ∀ x, droneIds.contains x = true → node_ids.contains x = true)
    (hlt : ∀ x, droneIds.contains x = true → x < MAX_NODES)
    (hbidir : ∀ node, node_ids.contains node = true → node < MAX_NODES →
      ∀ id, (g node).contains id = true → id < MAX_NODES →
        node_ids.contains id = true ∧ (g id).contains node = true) :
    ∀ a b, NReach (fun u => (g u).ones.filter droneIds.contains) a b →
      droneIds.contains a = true →
      droneIds.contains b = true ∧
      NReach (fun u => (g u).ones.filter droneIds.contains) b a := by
  intro a b h ha
  induction h with
  | refl => exact ⟨ha, Relation.ReflTransGen.refl⟩
  | @tail b0 c hab hbc ih =>
    obtain ⟨hb0, hb0a⟩ := ih
    obtain ⟨hedge, hclt, hcd⟩ := (droneNbr_mem g droneIds b0 c).mp hbc
    have hb0lt : b0 < MAX_NODES := hlt b0 hb0
    have hrev := (hbidir b0 (hsub b0 hb0) hb0lt c hedge hclt).2
    refine ⟨hcd, Relation.ReflTransGen.head ?_ hb0a⟩
    exact (droneNbr_mem g droneIds c b0).mpr ⟨hrev, hb0lt, hb0⟩

/-- Under bidirectionality, full-graph traversal never leaves the set of
declared nodes. -/
theorem nreach_stays_in_ids (g : Graph) (node_ids : BitSet)
    (hnlt : ∀ x, node_ids.contains x = true → x < MAX_NODES)
    (hbidir : ∀ node, node_ids.contains node = true → node < MAX_NODES →
      ∀ id, (g node).contains id = true → id < MAX_NODES →
        node_ids.contains id = true ∧ (g id).contains node = true) :
    ∀ a b, NReach (fun u => (g u).ones) a b → node_ids.contains a = true →
      node_ids.contains b = true := by
  intro a b h ha
  induction h with
  | refl => exact ha
  | @tail b0 c hab hbc ih =>
    obtain ⟨hcont, hclt⟩ := (BitSet.mem_ones _ _).mp hbc
    exact (hbidir b0 ih (hnlt b0 ih) c hcont hclt).1

theorem BitSet.count_congr (s t : BitSet)
    (h : ∀ x, x < MAX_NODES → (s.contains x = true ↔ t.contains x = true)) :
    s.count = t.count := by
  rw [BitSet.count, BitSet.count]
  congr 1
  apply Finset.filter_congr
  intro j hj
  have hiff := h j (Finset.mem_range.mp hj)
  constructor
  · intro hs; exact (by simpa using hiff.mp (by simpa using hs))
  · intro ht; exact (by simpa using hiff.mpr (by simpa using ht))

/-- Consolidated characterization of the three id-collection segments of
`validate_config` when they all succeed on a well-formed configuration. -/
theorem validate_loops_spec (cfg : Config) (hwf : cfg.Wf)
    (droneIds : BitSet) (nDrones : Nat) (ids1 : BitSet) (n1 : Nat)
    (node_ids : BitSet) (n_nodes : Nat)
    (h1 : validate_drones_loop cfg.drone BitSet.empty 0 = .ok (droneIds, nDrones))
    (h2 : validate_clients_loop cfg.client droneIds nDrones = .ok (ids1, n1))
    (h3 : validate_servers_loop cfg.server ids1 n1 = .ok (node_ids, n_nodes)) :
    (∀ x, droneIds.contains x = true ↔ IsDroneId cfg x) ∧
    (∀ x, node_ids.contains x = true ↔ Declared cfg x) ∧
    nDrones = cfg.drone.length ∧
    n_nodes = cfg.drone.length + cfg.client.length + cfg.server.length ∧
    nDrones = droneIds.count ∧
    n_nodes = node_ids.count ∧
    (∀ x, droneIds.contains x = true → x < MAX_NODES) ∧
    (∀ x, node_ids.contains x = true → x < MAX_NODES) := by
  obtain ⟨hwd, hwc, hws⟩ := hwf
  obtain ⟨hm1, hn1⟩ := validate_drones_loop_ok cfg.drone BitSet.empty 0 droneIds nDrones h1
  obtain ⟨hm2, hn2⟩ := validate_clients_loop_ok cfg.client droneIds nDrones ids1 n1 h2
  obtain ⟨hm3, hn3⟩ := validate_servers_loop_ok cfg.server ids1 n1 node_ids n_nodes h3
  obtain ⟨hc1, hb1⟩ := validate_drones_loop_count cfg.drone BitSet.empty 0 droneIds nDrones h1
    (fun d hd => (hwd d hd).1) (by rw [BitSet.count_empty])
    (fun x hx => absurd hx (by simp [BitSet.contains_empty]))
  obtain ⟨hc2, hb2⟩ := validate_clients_loop_count cfg.client droneIds nDrones ids1 n1 h2
    (fun c hc => (hwc c hc).1) hc1 hb1
  obtain ⟨hc3, hb3⟩ := validate_servers_loop_count cfg.server ids1 n1 node_ids n_nodes h3
    (fun s hs => (hws s hs).1) hc2 hb2
  have hdiff : ∀ x, droneIds.contains x = true ↔ IsDroneId cfg x := by
    intro x
    rw [hm1 x, IsDroneId]
    simp [BitSet.contains_empty]
  refine ⟨hdiff, ?_, ?_, ?_, hc1, hc3, hb1, hb3⟩
  · intro x
    rw [hm3 x, hm2 x, hdiff x]
    unfold Declared IsDroneId
    exact or_assoc
  · rw [hn1]; omega
  · rw [hn3, hn2, hn1]; omega

/-- C10: `validate_config` accepts the empty configuration: no per-node
or duplicate checks run, the cross-kind check passes vacuously, the
bidirectionality scan has nothing to visit, and the two traversal checks
return success through their zero-count early exits. -/
theorem c10_empty_config_accepted : validate_config ⟨[], [], []⟩ = .ok () := by decide

/-- C4: for a non-empty well-formed configuration that reaches the
global-connectivity check (the per-node, duplicate-id, cross-kind and
bidirectionality stages all succeeded), the check accepts exactly when
the breadth-first traversal from the first declared node over the full
neighbor graph visits every declared node (its visited count equals the
total node count), and otherwise it returns the error stating that the
topology is not connected. -/
theorem c4_global_connectivity (cfg : Config) (hwf : cfg.Wf)
    (hne : cfg.drone ≠ [] ∨ cfg.client ≠ [] ∨ cfg.server ≠ [])
    (droneIds : BitSet) (nDrones : Nat) (ids1 : BitSet) (n1 : Nat)
    (node_ids : BitSet) (n_nodes : Nat)
    (h1 : validate_drones_loop cfg.drone BitSet.empty 0 = .ok (droneIds, nDrones))
    (h2 : validate_clients_loop cfg.client droneIds nDrones = .ok (ids1, n1))
    (h3 : validate_servers_loop cfg.server ids1 n1 = .ok (node_ids, n_nodes))
    (h4 : validate_all_neighbors_are_drones cfg droneIds = .ok ())
    (h5 : validate_bidirectional_graph (compute_init_graph cfg) node_ids = .ok ()) :
    (validate_connected_graph (compute_init_graph cfg) node_ids n_nodes = .ok () ↔
      ∀ v, Declared cfg v →
        GraphReach (compute_init_graph cfg) (node_ids.ones.headD 0) v) ∧
    (validate_connected_graph (compute_init_graph cfg) node_ids n_nodes ≠ .ok () →
      validate_connected_graph (compute_init_graph cfg) node_ids n_nodes =
        .error "The network topology is not connected") := by
  obtain ⟨hdiff, hniff, hndr, hnn, hcd, hcn, hbd, hbn⟩ :=
    validate_loops_spec cfg hwf droneIds nDrones ids1 n1 node_ids n_nodes h1 h2 h3
  have hnzero : ¬n_nodes = 0 := by
    rw [hnn]
    rcases hne with hne | hne | hne <;>
      · have := List.length_pos.mpr hne
        omega
  set g := compute_init_graph cfg with hg
  have hgwf : ∀ u v, (g u).contains v = true → v < MAX_NODES :=
    fun u v h => (compute_init_graph_lt cfg hwf u v h).2
  have hbidir := (validate_bidirectional_graph_ok g node_ids).mp h5
  have honesne : node_ids.ones ≠ [] := by
    apply BitSet.ones_ne_nil_of_count_ne_zero
    rw [← hcn]
    exact hnzero
  have hstartmem : node_ids.contains (node_ids.ones.headD 0) = true :=
    ((BitSet.mem_ones _ _).mp (BitSet.headD_ones_mem node_ids honesne)).1
  obtain ⟨V, hViff, hVb, hok, herr⟩ := validate_connected_graph_spec g node_ids n_nodes hnzero
  have hVsub : ∀ x, V.contains x = true → node_ids.contains x = true := by
    intro x hx
    exact nreach_stays_in_ids g node_ids hbn hbidir _ x ((hViff x).mp hx) hstartmem
  constructor
  · constructor
    · intro hcheck v hv
      have hcount : V.count = n_nodes := by
        by_contra hc
        rw [herr hc] at hcheck
        exact Except.noConfusion hcheck
      have hpt := BitSet.eq_of_subset_of_count_eq hVsub (by rw [hcount, hcn])
      have hvn : node_ids.contains v = true := (hniff v).mpr hv
      have hvV : V.contains v = true := (hpt v (hbn v hvn)).mpr hvn
      exact (nreach_ones_iff_graphReach g hgwf _ v).mp ((hViff v).mp hvV)
    · intro hreach
      apply hok
      rw [hcn]
      apply BitSet.count_congr
      intro x hx
      constructor
      · exact hVsub x
      · intro hxn
        refine (hViff x).mpr ?_
        exact (nreach_ones_iff_graphReach g hgwf _ x).mpr (hreach x ((hniff x).mp hxn))
  · intro hne2
    by_cases hc : V.count = n_nodes
    · exact absurd (hok hc) hne2
    · exact herr hc

/-- Concrete valid configuration shared by several witnesses:
drones 1 and 2, client 3, server 4, fully connected and bidirectional. -/
def cfgW : Config :=
  { drone := [⟨1, [2, 3, 4], 0⟩, ⟨2, [1, 4], 1⟩],
    client := [⟨3, [1]⟩],
    server := [⟨4, [1, 2]⟩] }

/-- Drone-id bitset produced by the drone segment on `cfgW`. -/
def droneIdsW : BitSet := (BitSet.empty.insert 1).insert 2

/-- Node-id bitset after the client segment on `cfgW`. -/
def ids1W : BitSet := droneIdsW.insert 3

/-- Node-id bitset after the server segment on `cfgW`. -/
def nodeIdsW : BitSet := ids1W.insert 4

theorem c4_global_connectivity_witness :
    (validate_connected_graph (compute_init_graph cfgW) nodeIdsW 4 = .ok () ↔
      ∀ v, Declared cfgW v →
        GraphReach (compute_init_graph cfgW) (nodeIdsW.ones.headD 0) v) ∧
    (validate_connected_graph (compute_init_graph cfgW) nodeIdsW 4 ≠ .ok () →
      validate_connected_graph (compute_init_graph cfgW) nodeIdsW 4 =
        .error "The network topology is not connected") :=
  c4_global_connectivity cfgW (by decide) (Or.inl (List.cons_ne_nil _ _))
    droneIdsW 2 ids1W 3 nodeIdsW 4 (by rfl) (by rfl) (by rfl) (by decide) (by decide)

theorem BitSet.count_ne_zero_of_contains (s : BitSet) (x : Nat)
    (hx : s.contains x = true) (hlt : x < MAX_NODES) : s.count ≠ 0 := by
  intro h0
  rw [BitSet.count, Finset.card_eq_zero] at h0
  have hmem : x ∈ (Finset.range MAX_NODES).filter (fun j => s.mem j = true) := by
    simp only [Finset.mem_filter, Finset.mem_range]
    exact ⟨hlt, hx⟩
  rw [h0] at hmem
  exact absurd hmem (Finset.not_mem_empty x)

/-- A reflexive-transitive closure cannot leave a set closed under the
step relation. -/
theorem reflTransGen_invariant {r : Nat → Nat → Prop} (S : Nat → Prop)
    (hstep : ∀ u v, S u → r u v → S v) (a b : Nat) (ha : S a)
    (h : Relation.ReflTransGen r a b) : S b := by
  induction h with
  | refl => exact ha
  | tail h1 h2 ih => exact hstep _ _ ih h2

theorem not_reflTransGen_of_invariant {r : Nat → Nat → Prop} (S : Nat → Prop)
    (hstep : ∀ u v, S u → r u v → S v) (a b : Nat) (ha : S a) (hb : ¬S b) :
    ¬Relation.ReflTransGen r a b :=
  fun h => hb (reflTransGen_invariant S hstep a b ha h)

/-- C1: a well-formed configuration whose drone-to-drone subgraph is
disconnected (some drone is not reachable from another along edges whose
target is a drone) is always rejected by `validate_config`.  If an
earlier stage already fails the result is an error; otherwise the
drone-subgraph check's breadth-first traversal from the first drone,
which never steps into a non-drone id, cannot visit every drone (by
bidirectionality the traversal is reversible, so a full visit would
connect the two drones), and the check fails. -/
theorem c1_drone_subgraph_disconnected_rejected (cfg : Config) (hwf : cfg.Wf)
    (d1 d2 : Nat) (hd1 : IsDroneId cfg d1) (hd2 : IsDroneId cfg d2)
    (hsep : ¬DroneReach cfg d1 d2) :
    ∃ e, validate_config cfg = .error e := by
  rcases hv : validate_config cfg with e | u
  · exact ⟨e, rfl⟩
  rcases u
  exfalso
  obtain ⟨droneIds, nDrones, ids1, n1, node_ids, n_nodes, h1, h2, h3, h4, h5, h6, h7⟩ :=
    validate_config_ok_elim cfg hv
  obtain ⟨hdiff, hniff, hndr, hnn, hcd, hcn, hbd, hbn⟩ :=
    validate_loops_spec cfg hwf droneIds nDrones ids1 n1 node_ids n_nodes h1 h2 h3
  set g := compute_init_graph cfg with hg
  have hd1b : droneIds.contains d1 = true := (hdiff d1).mpr hd1
  have hd2b : droneIds.contains d2 = true := (hdiff d2).mpr hd2
  have hdcnt : droneIds.count ≠ 0 :=
    BitSet.count_ne_zero_of_contains droneIds d1 hd1b (hbd d1 hd1b)
  have hdrne : ¬nDrones = 0 := by rw [hcd]; exact hdcnt
  have hn : ¬(n_nodes = 0 ∨ nDrones = 0) := by
    rintro (h0 | h0)
    · rw [hnn] at h0
      apply hdrne
      rw [hndr]
      omega
    · exact hdrne h0
  obtain ⟨V, hViff, hVb, hok, herr⟩ :=
    validate_edges_clients_servers_spec g droneIds n_nodes nDrones hn
  have hcount : V.count = nDrones := by
    by_contra hc
    rw [herr hc] at h7
    exact Except.noConfusion h7
  have honesne : droneIds.ones ≠ [] :=
    BitSet.ones_ne_nil_of_count_ne_zero droneIds hdcnt
  have hstartmem : droneIds.contains (droneIds.ones.headD 0) = true :=
    ((BitSet.mem_ones _ _).mp (BitSet.headD_ones_mem droneIds honesne)).1
  have hbidir := (validate_bidirectional_graph_ok g node_ids).mp h5
  have hsub : ∀ x, droneIds.contains x = true → node_ids.contains x = true := by
    intro x hx
    refine (hniff x).mpr ?_
    exact Or.inl ((hdiff x).mp hx)
  have hsymm := nreach_drone_symm g droneIds node_ids hsub hbd hbidir
  have hVsub : ∀ x, V.contains x = true → droneIds.contains x = true := by
    intro x hx
    exact (hsymm _ x ((hViff x).mp hx) hstartmem).1
  have hpt := BitSet.eq_of_subset_of_count_eq hVsub (by rw [hcount, hcd])
  have hr1 : NReach (fun u => (g u).ones.filter droneIds.contains)
      (droneIds.ones.headD 0) d1 :=
    (hViff d1).mp ((hpt d1 (hbd d1 hd1b)).mpr hd1b)
  have hr2 : NReach (fun u => (g u).ones.filter droneIds.contains)
      (droneIds.ones.headD 0) d2 :=
    (hViff d2).mp ((hpt d2 (hbd d2 hd2b)).mpr hd2b)
  have hr1rev := (hsymm _ d1 hr1 hstartmem).2
  have hreach12 : NReach (fun u => (g u).ones.filter droneIds.contains) d1 d2 :=
    Relation.ReflTransGen.trans hr1rev hr2
  apply hsep
  refine Relation.ReflTransGen.mono ?_ hreach12
  intro u v hv2
  obtain ⟨hedge, hvlt, hvd⟩ := (droneNbr_mem g droneIds u v).mp hv2
  exact ⟨(compute_init_graph_contains cfg u v).mp hedge, (hdiff v).mp hvd⟩

/-- Two drone clusters, ids 1-2 and 3-4, joined only through server 5:
the full graph is connected but the drone subgraph is not. -/
def cfgClusters : Config :=
  { drone := [⟨1, [2, 5], 0⟩, ⟨2, [1], 0⟩, ⟨3, [4, 5], 0⟩, ⟨4, [3], 0⟩],
    client := [],
    server := [⟨5, [1, 3]⟩] }

theorem c1_drone_subgraph_disconnected_rejected_witness :
    ∃ e, validate_config cfgClusters = .error e :=
  c1_drone_subgraph_disconnected_rejected cfgClusters (by decide) 1 3
    (⟨⟨1, [2, 5], 0⟩, by simp [cfgClusters], rfl⟩)
    (⟨⟨3, [4, 5], 0⟩, by simp [cfgClusters], rfl⟩)
    (not_reflTransGen_of_invariant (fun x => x = 1 ∨ x = 2)
      (by
        intro u v hu hs
        obtain ⟨he, hd⟩ := hs
        simp [cfgClusters, DeclEdge, IsDroneId] at he hd
        rcases hu with rfl | rfl <;> omega)
      1 3 (Or.inl rfl) (by omega))

theorem declared_of_declEdge (cfg : Config) (a b : Nat) (h : DeclEdge cfg a b) :
    Declared cfg a := by
  rcases h with ⟨d, hd, hid, _⟩ | ⟨c, hc, hid, _⟩ | ⟨s, hs, hid, _⟩
  · exact Or.inl ⟨d, hd, hid⟩
  · exact Or.inr (Or.inl ⟨c, hc, hid⟩)
  · exact Or.inr (Or.inr ⟨s, hs, hid⟩)

/-- C3: a well-formed configuration that passes the per-node and
duplicate-id segments is rejected by `validate_config` whenever some
declared edge `a -> b` points at an undeclared node or lacks the reverse
edge `b -> a`: were the full validation to succeed, the bidirectionality
stage would have certified both. -/
theorem c3_bidirectionality_rejects (cfg : Config) (hwf : cfg.Wf)
    (droneIds : BitSet) (nDrones : Nat) (ids1 : BitSet) (n1 : Nat)
    (node_ids : BitSet) (n_nodes : Nat)
    (h1 : validate_drones_loop cfg.drone BitSet.empty 0 = .ok (droneIds, nDrones))
    (h2 : validate_clients_loop cfg.client droneIds nDrones = .ok (ids1, n1))
    (h3 : validate_servers_loop cfg.server ids1 n1 = .ok (node_ids, n_nodes))
    (a b : Nat) (hedge : DeclEdge cfg a b)
    (hbad : ¬Declared cfg b ∨ ¬DeclEdge cfg b a) :
    ∃ e, validate_config cfg = .error e := by
  rcases hv : validate_config cfg with e | u
  · exact ⟨e, rfl⟩
  rcases u
  exfalso
  obtain ⟨droneIds2, nDrones2, ids12, n12, node_ids2, n_nodes2, g1, g2, g3, g4, g5, g6, g7⟩ :=
    validate_config_ok_elim cfg hv
  obtain ⟨hdiff, hniff, hndr, hnn, hcd, hcn, hbd, hbn⟩ :=
    validate_loops_spec cfg hwf droneIds2 nDrones2 ids12 n12 node_ids2 n_nodes2 g1 g2 g3
  set g := compute_init_graph cfg with hg
  have hbidir := (validate_bidirectional_graph_ok g node_ids2).mp g5
  have hna : node_ids2.contains a = true := (hniff a).mpr (declared_of_declEdge cfg a b hedge)
  have hcontains : (g a).contains b = true := (compute_init_graph_contains cfg a b).mpr hedge
  have hblt : b < MAX_NODES := (compute_init_graph_lt cfg hwf a b hcontains).2
  obtain ⟨hnb, hrev⟩ := hbidir a hna (hbn a hna) b hcontains hblt
  rcases hbad with hbad | hbad
  · exact hbad ((hniff b).mp hnb)
  · exact hbad ((compute_init_graph_contains cfg b a).mp hrev)

/-- Configuration with the one-way edge 1 -> 2: every per-node and
duplicate-id check passes, but drone 2 does not list drone 1 back. -/
def cfgOneWay : Config :=
  { drone := [⟨1, [2], 0⟩, ⟨2, [], 0⟩], client := [], server := [] }

/-- Drone-id bitset produced by the drone segment on `cfgOneWay`. -/
def droneIdsOneWay : BitSet := (BitSet.empty.insert 1).insert 2

theorem c3_bidirectionality_rejects_witness :
    ∃ e, validate_config cfgOneWay = .error e :=
  c3_bidirectionality_rejects cfgOneWay (by decide)
    droneIdsOneWay 2 droneIdsOneWay 2 droneIdsOneWay 2
    (by rfl) (by rfl) (by rfl) 1 2 (by decide) (Or.inr (by decide))

theorem validate_drones_loop_ok_entries (l : List Drone) :
    ∀ (ids : BitSet) (n : Nat) (ids' : BitSet) (n' : Nat),
    validate_drones_loop l ids n = .ok (ids', n') →
    ∀ d ∈ l, validate_drone d = .ok () := by
  induction l with
  | nil => intro ids n ids' n' h d hd; exact absurd hd (List.not_mem_nil d)
  | cons d0 rest ih =>
    intro ids n ids' n' h d hd
    simp only [validate_drones_loop] at h
    rcases hv : validate_drone d0 with e | u
    · rw [hv] at h; exact Except.noConfusion h
    · rw [hv] at h
      rcases u
      rcases hdup : ids.contains d0.id with _ | _ <;> rw [hdup] at h
      · simp only [Bool.false_eq_true, if_false] at h
        rcases List.mem_cons.mp hd with rfl | hd2
        · exact hv
        · exact ih (ids.insert d0.id) (n + 1) ids' n' h d hd2
      · simp only [if_true] at h; exact Except.noConfusion h

theorem validate_clients_loop_ok_entries (l : List Client) :
    ∀ (ids : BitSet) (n : Nat) (ids' : BitSet) (n' : Nat),
    validate_clients_loop l ids n = .ok (ids', n') →
    ∀ c ∈ l, validate_client c = .ok () := by
  induction l with
  | nil => intro ids n ids' n' h c hc; exact absurd hc (List.not_mem_nil c)
  | cons c0 rest ih =>
    intro ids n ids' n' h c hc
    simp only [validate_clients_loop] at h
    rcases hv : validate_client c0 with e | u
    · rw [hv] at h; exact Except.noConfusion h
    · rw [hv] at h
      rcases u
      rcases hdup : ids.contains c0.id with _ | _ <;> rw [hdup] at h
      · simp only [Bool.false_eq_true, if_false] at h
        rcases List.mem_cons.mp hc with rfl | hc2
        · exact hv
        · exact ih (ids.insert c0.id) (n + 1) ids' n' h c hc2
      · simp only [if_true] at h; exact Except.noConfusion h

theorem validate_servers_loop_ok_entries (l : List Server) :
    ∀ (ids : BitSet) (n : Nat) (ids' : BitSet) (n' : Nat),
    validate_servers_loop l ids n = .ok (ids', n') →
    ∀ s ∈ l, validate_server s = .ok () := by
  induction l with
  | nil => intro ids n ids' n' h s hs; exact absurd hs (List.not_mem_nil s)
  | cons s0 rest ih =>
    intro ids n ids' n' h s hs
    simp only [validate_servers_loop] at h
    rcases hv : validate_server s0 with e | u
    · rw [hv] at h; exact Except.noConfusion h
    · rw [hv] at h
      rcases u
      rcases hdup : ids.contains s0.id with _ | _ <;> rw [hdup] at h
      · simp only [Bool.false_eq_true, if_false] at h
        rcases List.mem_cons.mp hs with rfl | hs2
        · exact hv
        · exact ih (ids.insert s0.id) (n + 1) ids' n' h s hs2
      · simp only [if_true] at h; exact Except.noConfusion h

theorem validate_drone_error_pdr (d : Drone) (h : d.pdr < 0 ∨ d.pdr > 1) :
    validate_drone d =
      .error ("Invalid PDR for drone [" ++ toString d.id ++ "]: " ++ toString d.pdr) := by
  rw [validate_drone, if_pos h]

theorem validate_drone_ok_pdr (d : Drone) (h0 : 0 ≤ d.pdr) (h1 : d.pdr ≤ 1) :
    validate_drone d = drone_nbr_loop d.id d.connected_node_ids BitSet.empty := by
  rw [validate_drone, if_neg]
  rintro (h | h)
  · exact absurd h (not_lt.mpr h0)
  · exact absurd h (not_lt.mpr h1)

theorem validate_client_error_zero (c : Client) (h : c.connected_drone_ids = []) :
    validate_client c =
      .error ("Client [" ++ toString c.id ++ "] is connected to 0 drones") := by
  rw [validate_client, if_pos h]

theorem validate_client_error_many (c : Client) (h : 2 < c.connected_drone_ids.length) :
    validate_client c =
      .error ("Client [" ++ toString c.id ++ "] has more than 2 neighbors") := by
  have hne : c.connected_drone_ids ≠ [] := by
    intro hnil
    rw [hnil] at h
    simp at h
  rw [validate_client, if_neg hne, if_pos h]

theorem validate_client_degree_ok (c : Client) (h1 : 1 ≤ c.connected_drone_ids.length)
    (h2 : c.connected_drone_ids.length ≤ 2) :
    validate_client c = client_nbr_loop c.id c.connected_drone_ids BitSet.empty := by
  have hne : c.connected_drone_ids ≠ [] := by
    intro hnil
    rw [hnil] at h1
    simp at h1
  rw [validate_client, if_neg hne, if_neg (not_lt.mpr h2)]

theorem validate_server_error_few (s : Server) (h : s.connected_drone_ids.length < 2) :
    validate_server s =
      .error ("Server [" ++ toString s.id ++ "] has less than 2 neighbors") := by
  rw [validate_server, if_pos h]

theorem validate_server_degree_ok (s : Server) (h : 2 ≤ s.connected_drone_ids.length) :
    validate_server s = server_nbr_loop s.id s.connected_drone_ids BitSet.empty := by
  rw [validate_server, if_neg (not_lt.mpr h)]

/-- C7 (amended): a well-formed configuration containing a drone whose
PDR lies outside `[0,1]` is always rejected by `validate_config`; the PDR
check itself produces the error naming that drone's id and PDR value,
and a drone whose PDR is inside `[0,1]` passes the PDR check and proceeds
to the neighbor scan.  (The configuration-level error message is the one
of the first failing check, which need not be the PDR check.) -/
theorem c7_pdr_check (cfg : Config) (hwf : cfg.Wf) :
    ((∃ d ∈ cfg.drone, d.pdr < 0 ∨ d.pdr > 1) → ∃ e, validate_config cfg = .error e) ∧
    (∀ d : Drone, (d.pdr < 0 ∨ d.pdr > 1) →
      validate_drone d =
        .error ("Invalid PDR for drone [" ++ toString d.id ++ "]: " ++ toString d.pdr)) ∧
    (∀ d : Drone, 0 ≤ d.pdr → d.pdr ≤ 1 →
      validate_drone d = drone_nbr_loop d.id d.connected_node_ids BitSet.empty) := by
  refine ⟨?_, validate_drone_error_pdr, validate_drone_ok_pdr⟩
  rintro ⟨d, hd, hbad⟩
  rcases hv : validate_config cfg with e | u
  · exact ⟨e, rfl⟩
  rcases u
  exfalso
  obtain ⟨droneIds, nDrones, ids1, n1, node_ids, n_nodes, h1, h2, h3, h4, h5, h6, h7⟩ :=
    validate_config_ok_elim cfg hv
  have hok := validate_drones_loop_ok_entries cfg.drone BitSet.empty 0 droneIds nDrones h1 d hd
  rw [validate_drone_error_pdr d hbad] at hok
  exact Except.noConfusion hok

/-- C8: a well-formed configuration containing a client with zero or more
than two neighbors, or a server with fewer than two neighbors, is always
rejected by `validate_config`; a client with one or two neighbors and a
server with at least two pass the degree checks and proceed to the
self-loop/duplicate neighbor scan. -/
theorem c8_degree_bounds (cfg : Config) (hwf : cfg.Wf) :
    ((∃ c ∈ cfg.client, c.connected_drone_ids = [] ∨ 2 < c.connected_drone_ids.length) →
      ∃ e, validate_config cfg = .error e) ∧
    ((∃ s ∈ cfg.server, s.connected_drone_ids.length < 2) →
      ∃ e, validate_config cfg = .error e) ∧
    (∀ c : Client, 1 ≤ c.connected_drone_ids.length → c.connected_drone_ids.length ≤ 2 →
      validate_client c = client_nbr_loop c.id c.connected_drone_ids BitSet.empty) ∧
    (∀ s : Server, 2 ≤ s.connected_drone_ids.length →
      validate_server s = server_nbr_loop s.id s.connected_drone_ids BitSet.empty) := by
  refine ⟨?_, ?_, validate_client_degree_ok, validate_server_degree_ok⟩
  · rintro ⟨c, hc, hbad⟩
    rcases hv : validate_config cfg with e | u
    · exact ⟨e, rfl⟩
    rcases u
    exfalso
    obtain ⟨droneIds, nDrones, ids1, n1, node_ids, n_nodes, h1, h2, h3, h4, h5, h6, h7⟩ :=
      validate_config_ok_elim cfg hv
    have hok := validate_clients_loop_ok_entries cfg.client droneIds nDrones ids1 n1 h2 c hc
    rcases hbad with hbad | hbad
    · rw [validate_client_error_zero c hbad] at hok
      exact Except.noConfusion hok
    · rw [validate_client_error_many c hbad] at hok
      exact Except.noConfusion hok
  · rintro ⟨s, hs, hbad⟩
    rcases hv : validate_config cfg with e | u
    · exact ⟨e, rfl⟩
    rcases u
    exfalso
    obtain ⟨droneIds, nDrones, ids1, n1, node_ids, n_nodes, h1, h2, h3, h4, h5, h6, h7⟩ :=
      validate_config_ok_elim cfg hv
    have hok := validate_servers_loop_ok_entries cfg.server ids1 n1 node_ids n_nodes h3 s hs
    rw [validate_server_error_few s hbad] at hok
    exact Except.noConfusion hok

/-- Configuration with drone 1 carrying a duplicate neighbor and drone 3
carrying PDR 2, outside `[0,1]`. -/
def cfgPdrMasked : Config :=
  { drone := [⟨1, [2, 2], 0⟩, ⟨3, [], 2⟩], client := [], server := [] }

/-- C7 counterexample: this configuration contains a drone (id 3) whose
PDR 2 lies outside `[0,1]`, yet `validate_config` returns the
duplicate-neighbor error of the earlier drone 1; the error names neither
id 3 nor the PDR value 2, refuting the claim that the returned error
always names the offending drone's id and PDR. -/
theorem c7_pdr_naming_counterexample :
    (∃ d ∈ cfgPdrMasked.drone, d.pdr < 0 ∨ d.pdr > 1) ∧
    validate_config cfgPdrMasked = .error "Drone [1] has duplicate neighbor [2]" := by
  constructor
  · exact ⟨⟨3, [], 2⟩, by simp [cfgPdrMasked], by norm_num⟩
  · decide

/-- Configuration with a single drone whose PDR 2 is outside `[0,1]`. -/
def cfgBadPdr : Config :=
  { drone := [⟨7, [], 2⟩], client := [], server := [] }

theorem c7_pdr_check_witness :
    (∃ e, validate_config cfgBadPdr = .error e) ∧
    validate_drone ⟨7, [], 2⟩ =
      .error ("Invalid PDR for drone [" ++ toString (7 : Nat) ++ "]: " ++
        toString (2 : Rat)) ∧
    validate_drone ⟨7, [], 0⟩ = drone_nbr_loop 7 [] BitSet.empty :=
  ⟨(c7_pdr_check cfgBadPdr (by decide)).1 ⟨⟨7, [], 2⟩, by simp [cfgBadPdr], by norm_num⟩,
   (c7_pdr_check cfgBadPdr (by decide)).2.1 ⟨7, [], 2⟩ (by norm_num),
   (c7_pdr_check cfgBadPdr (by decide)).2.2 ⟨7, [], 0⟩ (by norm_num) (by norm_num)⟩

/-- Configuration with a client with zero neighbors. -/
def cfgBadClient : Config :=
  { drone := [], client := [⟨7, []⟩], server := [] }

/-- Configuration with a server with a single neighbor. -/
def cfgBadServer : Config :=
  { drone := [], client := [], server := [⟨7, [1]⟩] }

theorem c8_degree_bounds_witness :
    (∃ e, validate_config cfgBadClient = .error e) ∧
    (∃ e, validate_config cfgBadServer = .error e) ∧
    validate_client ⟨5, [1]⟩ = client_nbr_loop 5 [1] BitSet.empty ∧
    validate_server ⟨6, [1, 2]⟩ = server_nbr_loop 6 [1, 2] BitSet.empty :=
  ⟨(c8_degree_bounds cfgBadClient (by decide)).1
      ⟨⟨7, []⟩, by simp [cfgBadClient], Or.inl rfl⟩,
   (c8_degree_bounds cfgBadServer (by decide)).2.1
      ⟨⟨7, [1]⟩, by simp [cfgBadServer], by simp⟩,
   (c8_degree_bounds cfgBadClient (by decide)).2.2.1 ⟨5, [1]⟩ (by simp) (by simp),
   (c8_degree_bounds cfgBadClient (by decide)).2.2.2 ⟨6, [1, 2]⟩ (by simp)⟩

/-! ## Check ordering (refinement of the fail-fast composition) -/

/-- Modelled from the spec's fail-fast description: run a list of
independent checks in order and return the first error, `Ok` if none
fails. -/
def checkResult : List (Except String Unit) → Except String Unit
  | [] => .ok ()
  | .error e :: _ => .error e
  | .ok () :: rest => checkResult rest

/-- The duplicate-id test of one id against an id set, as `validate_config`
performs it right after a node's structural check. -/
def dupIdCheck (ids : BitSet) (x : Nat) : Except String Unit :=
  if ids.contains x then .error ("Duplicate node ID found: [" ++ toString x ++ "]")
  else .ok ()

/-- Per-drone checks in declaration order: structural check, then the
duplicate-id test against the previously collected ids. -/
def dronesChecks : List Drone → BitSet → List (Except String Unit)
  | [], _ => []
  | d :: rest, ids =>
    validate_drone d :: dupIdCheck ids d.id :: dronesChecks rest (ids.insert d.id)

/-- Per-client checks in declaration order. -/
def clientsChecks : List Client → BitSet → List (Except String Unit)
  | [], _ => []
  | c :: rest, ids =>
    validate_client c :: dupIdCheck ids c.id :: clientsChecks rest (ids.insert c.id)

/-- Per-server checks in declaration order. -/
def serversChecks : List Server → BitSet → List (Except String Unit)
  | [], _ => []
  | s :: rest, ids =>
    validate_server s :: dupIdCheck ids s.id :: serversChecks rest (ids.insert s.id)

/-- All drone ids inserted into a bitset. -/
def insertDroneIds (l : List Drone) (s : BitSet) : BitSet :=
  l.foldl (fun s2 d => s2.insert d.id) s

/-- All client ids inserted into a bitset. -/
def insertClientIds (l : List Client) (s : BitSet) : BitSet :=
  l.foldl (fun s2 c => s2.insert c.id) s

/-- All server ids inserted into a bitset. -/
def insertServerIds (l : List Server) (s : BitSet) : BitSet :=
  l.foldl (fun s2 s3 => s2.insert s3.id) s

/-- The ordered list of checks performed by `validate_config`: for each
kind in order drones, clients, servers, each node's structural check
followed by its duplicate-id test; then the cross-kind neighbor-kind
check, bidirectionality, global connectivity, and the drone-subgraph
check. -/
def specChecks (cfg : Config) : List (Except String Unit) :=
  dronesChecks cfg.drone BitSet.empty ++
  clientsChecks cfg.client (insertDroneIds cfg.drone BitSet.empty) ++
  serversChecks cfg.server
    (insertClientIds cfg.client (insertDroneIds cfg.drone BitSet.empty)) ++
  [validate_all_neighbors_are_drones cfg (insertDroneIds cfg.drone BitSet.empty),
   validate_bidirectional_graph (compute_init_graph cfg)
     (insertServerIds cfg.server
       (insertClientIds cfg.client (insertDroneIds cfg.drone BitSet.empty))),
   validate_connected_graph (compute_init_graph cfg)
     (insertServerIds cfg.server
       (insertClientIds cfg.client (insertDroneIds cfg.drone BitSet.empty)))
     (cfg.drone.length + cfg.client.length + cfg.server.length),
   validate_edges_clients_servers (compute_init_graph cfg)
     (insertDroneIds cfg.drone BitSet.empty)
     (cfg.drone.length + cfg.client.length + cfg.server.length)
     cfg.drone.length]

theorem checkResult_drones (l : List Drone) :
    ∀ (ids : BitSet) (n : Nat) (rest : List (Except String Unit)),
    checkResult (dronesChecks l ids ++ rest) =
      (match validate_drones_loop l ids n with
       | .error e => .error e
       | .ok _ => checkResult rest) := by
  induction l with
  | nil => intro ids n rest; rfl
  | cons d tail ih =>
    intro ids n rest
    simp only [dronesChecks, List.cons_append, validate_drones_loop]
    rcases hv : validate_drone d with e | u
    · rfl
    · rcases u
      show checkResult (dupIdCheck ids d.id :: (dronesChecks tail (ids.insert d.id) ++ rest)) = _
      rcases hdup : ids.contains d.id with _ | _
      · have hd : dupIdCheck ids d.id = .ok () := by rw [dupIdCheck, if_neg (by rw [hdup]; exact Bool.false_ne_true)]
        rw [hd]
        show checkResult (dronesChecks tail (ids.insert d.id) ++ rest) = _
        rw [ih (ids.insert d.id) (n + 1) rest]
        simp only [hdup, Bool.false_eq_true, if_false]
      · have hd : dupIdCheck ids d.id =
            .error ("Duplicate node ID found: [" ++ toString d.id ++ "]") := by
          rw [dupIdCheck, if_pos (by rw [hdup])]
        rw [hd]
        simp only [hdup, if_true]
        rfl

theorem checkResult_clients (l : List Client) :
    ∀ (ids : BitSet) (n : Nat) (rest : List (Except String Unit)),
    checkResult (clientsChecks l ids ++ rest) =
      (match validate_clients_loop l ids n with
       | .error e => .error e
       | .ok _ => checkResult rest) := by
  induction l with
  | nil => intro ids n rest; rfl
  | cons c tail ih =>
    intro ids n rest
    simp only [clientsChecks, List.cons_append, validate_clients_loop]
    rcases hv : validate_client c with e | u
    · rfl
    · rcases u
      show checkResult (dupIdCheck ids c.id :: (clientsChecks tail (ids.insert c.id) ++ rest)) = _
      rcases hdup : ids.contains c.id with _ | _
      · have hd : dupIdCheck ids c.id = .ok () := by rw [dupIdCheck, if_neg (by rw [hdup]; exact Bool.false_ne_true)]
        rw [hd]
        show checkResult (clientsChecks tail (ids.insert c.id) ++ rest) = _
        rw [ih (ids.insert c.id) (n + 1) rest]
        simp only [hdup, Bool.false_eq_true, if_false]
      · have hd : dupIdCheck ids c.id =
            .error ("Duplicate node ID found: [" ++ toString c.id ++ "]") := by
          rw [dupIdCheck, if_pos (by rw [hdup])]
        rw [hd]
        simp only [hdup, if_true]
        rfl

theorem checkResult_servers (l : List Server) :
    ∀ (ids : BitSet) (n : Nat) (rest : List (Except String Unit)),
    checkResult (serversChecks l ids ++ rest) =
      (match validate_servers_loop l ids n with
       | .error e => .error e
       | .ok _ => checkResult rest) := by
  induction l with
  | nil => intro ids n rest; rfl
  | cons s tail ih =>
    intro ids n rest
    simp only [serversChecks, List.cons_append, validate_servers_loop]
    rcases hv : validate_server s with e | u
    · rfl
    · rcases u
      show checkResult (dupIdCheck ids s.id :: (serversChecks tail (ids.insert s.id) ++ rest)) = _
      rcases hdup : ids.contains s.id with _ | _
      · have hd : dupIdCheck ids s.id = .ok () := by rw [dupIdCheck, if_neg (by rw [hdup]; exact Bool.false_ne_true)]
        rw [hd]
        show checkResult (serversChecks tail (ids.insert s.id) ++ rest) = _
        rw [ih (ids.insert s.id) (n + 1) rest]
        simp only [hdup, Bool.false_eq_true, if_false]
      · have hd : dupIdCheck ids s.id =
            .error ("Duplicate node ID found: [" ++ toString s.id ++ "]") := by
          rw [dupIdCheck, if_pos (by rw [hdup])]
        rw [hd]
        simp only [hdup, if_true]
        rfl

theorem validate_drones_loop_ok_state (l : List Drone) :
    ∀ (ids : BitSet) (n : Nat) (ids' : BitSet) (n' : Nat),
    validate_drones_loop l ids n = .ok (ids', n') →
    ids' = insertDroneIds l ids ∧ n' = n + l.length := by
  induction l with
  | nil =>
    intro ids n ids' n' h
    simp only [validate_drones_loop] at h
    injection h with h
    injection h with h1 h2
    subst h1; subst h2
    exact ⟨rfl, rfl⟩
  | cons d tail ih =>
    intro ids n ids' n' h
    simp only [validate_drones_loop] at h
    rcases hv : validate_drone d with e | u
    · rw [hv] at h; exact Except.noConfusion h
    · rw [hv] at h
      rcases u
      rcases hdup : ids.contains d.id with _ | _ <;> rw [hdup] at h
      · simp only [Bool.false_eq_true, if_false] at h
        obtain ⟨hi, hn⟩ := ih (ids.insert d.id) (n + 1) ids' n' h
        constructor
        · rw [hi]; rfl
        · rw [hn, List.length_cons]; omega
      · simp only [if_true] at h; exact Except.noConfusion h

theorem validate_clients_loop_ok_state (l : List Client) :
    ∀ (ids : BitSet) (n : Nat) (ids' : BitSet) (n' : Nat),
    validate_clients_loop l ids n = .ok (ids', n') →
    ids' = insertClientIds l ids ∧ n' = n + l.length := by
  induction l with
  | nil =>
    intro ids n ids' n' h
    simp only [validate_clients_loop] at h
    injection h with h
    injection h with h1 h2
    subst h1; subst h2
    exact ⟨rfl, rfl⟩
  | cons c tail ih =>
    intro ids n ids' n' h
    simp only [validate_clients_loop] at h
    rcases hv : validate_client c with e | u
    · rw [hv] at h; exact Except.noConfusion h
    · rw [hv] at h
      rcases u
      rcases hdup : ids.contains c.id with _ | _ <;> rw [hdup] at h
      · simp only [Bool.false_eq_true, if_false] at h
        obtain ⟨hi, hn⟩ := ih (ids.insert c.id) (n + 1) ids' n' h
        constructor
        · rw [hi]; rfl
        · rw [hn, List.length_cons]; omega
      · simp only [if_true] at h; exact Except.noConfusion h

theorem validate_servers_loop_ok_state (l : List Server) :
    ∀ (ids : BitSet) (n : Nat) (ids' : BitSet) (n' : Nat),
    validate_servers_loop l ids n = .ok (ids', n') →
    ids' = insertServerIds l ids ∧ n' = n + l.length := by
  induction l with
  | nil =>
    intro ids n ids' n' h
    simp only [validate_servers_loop] at h
    injection h with h
    injection h with h1 h2
    subst h1; subst h2
    exact ⟨rfl, rfl⟩
  | cons s tail ih =>
    intro ids n ids' n' h
    simp only [validate_servers_loop] at h
    rcases hv : validate_server s with e | u
    · rw [hv] at h; exact Except.noConfusion h
    · rw [hv] at h
      rcases u
      rcases hdup : ids.contains s.id with _ | _ <;> rw [hdup] at h
      · simp only [Bool.false_eq_true, if_false] at h
        obtain ⟨hi, hn⟩ := ih (ids.insert s.id) (n + 1) ids' n' h
        constructor
        · rw [hi]; rfl
        · rw [hn, List.length_cons]; omega
      · simp only [if_true] at h; exact Except.noConfusion h

/-- C2 (amended): `validate_config` is exactly the first-error
composition of its checks in this order: for each kind, in the order
drones, clients, servers, each node's structural check immediately
followed by its duplicate-id test, nodes in declaration order; then the
cross-kind neighbor-kind check, bidirectionality, global connectivity,
and the drone-subgraph check.  In particular validation stops at the
first violated check in this interleaved order. -/
theorem c2_fail_fast_order (cfg : Config) :
    validate_config cfg = checkResult (specChecks cfg) := by
  unfold specChecks
  rw [List.append_assoc, List.append_assoc,
    checkResult_drones cfg.drone BitSet.empty 0]
  rcases h1 : validate_drones_loop cfg.drone BitSet.empty 0 with e | ⟨dIds, nd⟩
  · simp only [validate_config, h1]
  · obtain ⟨hi1, hn1⟩ := validate_drones_loop_ok_state cfg.drone BitSet.empty 0 dIds nd h1
    subst hi1; subst hn1
    simp only [validate_config, h1]
    rw [checkResult_clients cfg.client (insertDroneIds cfg.drone BitSet.empty)
      (0 + cfg.drone.length)]
    rcases h2 : validate_clients_loop cfg.client (insertDroneIds cfg.drone BitSet.empty)
        (0 + cfg.drone.length) with e | ⟨ids1, n1⟩
    · simp only [h2]
    · obtain ⟨hi2, hn2⟩ := validate_clients_loop_ok_state cfg.client
        (insertDroneIds cfg.drone BitSet.empty) (0 + cfg.drone.length) ids1 n1 h2
      subst hi2; subst hn2
      simp only [h2]
      rw [checkResult_servers cfg.server
        (insertClientIds cfg.client (insertDroneIds cfg.drone BitSet.empty))
        (0 + cfg.drone.length + cfg.client.length)]
      rcases h3 : validate_servers_loop cfg.server
          (insertClientIds cfg.client (insertDroneIds cfg.drone BitSet.empty))
          (0 + cfg.drone.length + cfg.client.length) with e | ⟨nodeIds, nn⟩
      · simp only [h3]
      · obtain ⟨hi3, hn3⟩ := validate_servers_loop_ok_state cfg.server
          (insertClientIds cfg.client (insertDroneIds cfg.drone BitSet.empty))
          (0 + cfg.drone.length + cfg.client.length) nodeIds nn h3
        subst hi3; subst hn3
        simp only [h3]
        simp only [Nat.zero_add]
        rcases h4 : validate_all_neighbors_are_drones cfg
            (insertDroneIds cfg.drone BitSet.empty) with e | u
        · simp only [checkResult]
        · rcases u
          simp only [checkResult]
          rcases h5 : validate_bidirectional_graph (compute_init_graph cfg)
              (insertServerIds cfg.server (insertClientIds cfg.client
                (insertDroneIds cfg.drone BitSet.empty))) with e | u
          · simp only [checkResult]
          · rcases u
            simp only [checkResult]
            rcases h6 : validate_connected_graph (compute_init_graph cfg)
                (insertServerIds cfg.server (insertClientIds cfg.client
                  (insertDroneIds cfg.drone BitSet.empty)))
                (cfg.drone.length + cfg.client.length + cfg.server.length) with e | u
            · simp only [checkResult]
            · rcases u
              simp only [checkResult]
              rcases h7 : validate_edges_clients_servers (compute_init_graph cfg)
                  (insertDroneIds cfg.drone BitSet.empty)
                  (cfg.drone.length + cfg.client.length + cfg.server.length)
                  cfg.drone.length with e | u
              · simp only [checkResult]
              · rcases u
                simp only [checkResult]

/-- Configuration with two drones sharing id 70 (each structurally valid)
and a client with zero neighbors (structurally invalid). -/
def cfgDupMaskedClient : Config :=
  { drone := [⟨70, [], 0⟩, ⟨70, [], 0⟩], client := [⟨5, []⟩], server := [] }

/-- C2 counterexample: this configuration violates both a per-node
structural rule (client 5 has zero neighbors) and the duplicate-id rule
(drones sharing id 70).  Under the claimed order, in which all per-node
structural checks precede the global duplicate-id check, the returned
error would name the client-degree rule; `validate_config` instead
returns the duplicate-id error, because the duplicate-id test of each
drone runs before any client is examined. -/
theorem c2_order_counterexample :
    validate_config cfgDupMaskedClient = .error "Duplicate node ID found: [70]" ∧
    (∃ c ∈ cfgDupMaskedClient.client, c.connected_drone_ids = []) ∧
    validate_client ⟨5, []⟩ = .error "Client [5] is connected to 0 drones" := by
  refine ⟨by decide, ⟨⟨5, []⟩, by simp [cfgDupMaskedClient], rfl⟩, by decide⟩

/-! ## Model of the pure data built by `network_init` (`init.rs`) -/

/-- Model of `rust_roveri_api::NodeType`; the numeric codes stand for
the external `DroneImpl`, `ClientType` and `ServerType` values that
`from_code` returns for an in-range round-robin index. -/
inductive NodeTypeM where
  | none
  | drone (pdr : Rat) (implCode : Nat)
  | client (typeCode : Nat)
  | server (typeCode : Nat)
deriving DecidableEq

/-- Model of the `senders` array slots (`Command`): which kind of
command-channel send end is stored, `none` initially; the channel itself
is an external handle. -/
inductive CommandK where
  | none
  | droneCommand
  | clientCommand
  | serverCommand
deriving DecidableEq

/-- The pure data accumulated by the spawn phase of `network_init`:
sender kinds, presence of each packet-send end, assigned node types,
distribution counters and the three round-robin indices, plus the GUI
list of `(client id, client type code)` pairs.  Thread spawning and
channel creation are external effects, not modelled. -/
structure SpawnState where
  senders : Nat → CommandK
  packet_send_map : Nat → Bool
  topology_type : Nat → NodeTypeM
  drones_distro : Nat → Nat
  clients_distro : Nat → Nat
  servers_distro : Nat → Nat
  index_drone_impl : Nat
  index_client_types : Nat
  index_server_types : Nat
  gui : List (Nat × Nat)

/-- Spawn-phase state before any node is processed. -/
def initialSpawnState : SpawnState :=
  { senders := fun _ => CommandK.none,
    packet_send_map := fun _ => false,
    topology_type := fun _ => NodeTypeM.none,
    drones_distro := fun _ => 0,
    clients_distro := fun _ => 0,
    servers_distro := fun _ => 0,
    index_drone_impl := 0,
    index_client_types := 0,
    index_server_types := 0,
    gui := [] }

/-- One iteration of the drone spawn loop; `maxImpl` models the external
constant `MAX_IMPL`.  The counter at the current index is bumped before
the index advances, and the topology slot records the variant chosen
from the pre-advance index, as in the source. -/
def spawnDrone (maxImpl : Nat) (st : SpawnState) (d : Drone) : SpawnState :=
  { st with
    senders := fun j => if j = d.id then CommandK.droneCommand else st.senders j,
    packet_send_map := fun j => if j = d.id then true else st.packet_send_map j,
    drones_distro := fun i =>
      if i = st.index_drone_impl then st.drones_distro i + 1 else st.drones_distro i,
    index_drone_impl := (st.index_drone_impl + 1) % maxImpl,
    topology_type := fun j =>
      if j = d.id then NodeTypeM.drone d.pdr st.index_drone_impl else st.topology_type j }

/-- One iteration of the client spawn loop; `maxClientTypes` models
`MAX_CLIENT_TYPES`. -/
def spawnClient (maxClientTypes : Nat) (st : SpawnState) (c : Client) : SpawnState :=
  { st with
    senders := fun j => if j = c.id then CommandK.clientCommand else st.senders j,
    packet_send_map := fun j => if j = c.id then true else st.packet_send_map j,
    clients_distro := fun i =>
      if i = st.index_client_types then st.clients_distro i + 1 else st.clients_distro i,
    index_client_types := (st.index_client_types + 1) % maxClientTypes,
    topology_type := fun j =>
      if j = c.id then NodeTypeM.client st.index_client_types else st.topology_type j,
    gui := st.gui ++ [(c.id, st.index_client_types)] }

/-- One iteration of the server spawn loop; `maxServerTypes` models
`MAX_SERVER_TYPES`. -/
def spawnServer (maxServerTypes : Nat) (st : SpawnState) (s : Server) : SpawnState :=
  { st with
    senders := fun j => if j = s.id then CommandK.serverCommand else st.senders j,
    packet_send_map := fun j => if j = s.id then true else st.packet_send_map j,
    servers_distro := fun i =>
      if i = st.index_server_types then st.servers_distro i + 1 else st.servers_distro i,
    index_server_types := (st.index_server_types + 1) % maxServerTypes,
    topology_type := fun j =>
      if j = s.id then NodeTypeM.server st.index_server_types else st.topology_type j }

/-- The spawn phase: all drones, then all clients, then all servers. -/
def spawnPhase (mi mc ms : Nat) (cfg : Config) : SpawnState :=
  cfg.server.foldl (spawnServer ms)
    (cfg.client.foldl (spawnClient mc)
      (cfg.drone.foldl (spawnDrone mi) initialSpawnState))

/-- State threaded through the wiring phase: the adjacency bitsets of
the topology slots, and whether every guarded `packet_send_map` lookup
performed so far found a stored send end (`unwrap` would panic exactly
when this flag turns false). -/
structure WireState where
  topology_nbrs : Graph
  wiring_ok : Bool

/-- Wiring state before any edge is processed. -/
def initialWireState : WireState :=
  { topology_nbrs := fun _ => BitSet.empty, wiring_ok := true }

/-- Wiring of one node's declared neighbor list: per neighbor, the
topology bitset insertion always happens, and when the node's stored
command slot matches the loop's kind, the `AddSender`/`AddDrone` command
is built from `packet_send_map[neighbor]`, whose `unwrap` requires the
entry to be present. -/
def wireEntry (st : SpawnState) (kind : CommandK) (a : Nat) (nbrs : List Nat)
    (w : WireState) : WireState :=
  nbrs.foldl
    (fun w2 nb =>
      { topology_nbrs := Graph.insertEdge w2.topology_nbrs a nb,
        wiring_ok := w2.wiring_ok &&
          (if st.senders a = kind then st.packet_send_map nb else true) })
    w

/-- The wiring phase: drone edges, then client edges, then server edges,
after the spawn phase has completed for every node. -/
def wirePhase (st : SpawnState) (cfg : Config) : WireState :=
  cfg.server.foldl
    (fun w s => wireEntry st CommandK.serverCommand s.id s.connected_drone_ids w)
    (cfg.client.foldl
      (fun w c => wireEntry st CommandK.clientCommand c.id c.connected_drone_ids w)
      (cfg.drone.foldl
        (fun w d => wireEntry st CommandK.droneCommand d.id d.connected_node_ids w)
        initialWireState))

/-- The pure data assembled by `network_init`. -/
structure InitModel where
  topology_type : Nat → NodeTypeM
  topology_nbrs : Graph
  senders : Nat → CommandK
  packet_send_map : Nat → Bool
  drones_distro : Nat → Nat
  clients_distro : Nat → Nat
  servers_distro : Nat → Nat
  gui : List (Nat × Nat)
  wiring_ok : Bool

/-- Model of `network_init`: the spawn phase fully precedes the wiring
phase, and the result collects the topology array (types and neighbor
bitsets), the sender-kind and packet-send tables, the distribution
counters, the GUI list and the wiring-lookup safety flag. -/
def network_init (mi mc ms : Nat) (cfg : Config) : InitModel :=
  let st := spawnPhase mi mc ms cfg
  let w := wirePhase st cfg
  { topology_type := st.topology_type,
    topology_nbrs := w.topology_nbrs,
    senders := st.senders,
    packet_send_map := st.packet_send_map,
    drones_distro := st.drones_distro,
    clients_distro := st.clients_distro,
    servers_distro := st.servers_distro,
    gui := st.gui,
    wiring_ok := w.wiring_ok }

theorem spawnDrones_packet (mi : Nat) (l : List Drone) :
    ∀ (st : SpawnState) (j : Nat),
    ((l.foldl (spawnDrone mi) st).packet_send_map j = true) ↔
    (st.packet_send_map j = true ∨ ∃ d ∈ l, d.id = j) := by
  induction l with
  | nil => intro st j; simp
  | cons d tail ih =>
    intro st j
    rw [List.foldl_cons, ih]
    show ((if j = d.id then true else st.packet_send_map j) = true ∨ _) ↔ _
    by_cases hj : j = d.id
    · subst hj
      simp only [if_pos rfl, List.mem_cons]
      constructor
      · intro h; exact Or.inr ⟨d, Or.inl rfl, rfl⟩
      · intro h; exact Or.inl rfl
    · simp only [if_neg hj, List.mem_cons]
      constructor
      · rintro (h | ⟨d2, hd2, hid⟩)
        · exact Or.inl h
        · exact Or.inr ⟨d2, Or.inr hd2, hid⟩
      · rintro (h | ⟨d2, (rfl | hd2), hid⟩)
        · exact Or.inl h
        · exact absurd hid.symm hj
        · exact Or.inr ⟨d2, hd2, hid⟩

theorem spawnClients_packet (mc : Nat) (l : List Client) :
    ∀ (st : SpawnState) (j : Nat),
    ((l.foldl (spawnClient mc) st).packet_send_map j = true) ↔
    (st.packet_send_map j = true ∨ ∃ c ∈ l, c.id = j) := by
  induction l with
  | nil => intro st j; simp
  | cons c tail ih =>
    intro st j
    rw [List.foldl_cons, ih]
    show ((if j = c.id then true else st.packet_send_map j) = true ∨ _) ↔ _
    by_cases hj : j = c.id
    · subst hj
      simp only [if_pos rfl, List.mem_cons]
      constructor
      · intro h; exact Or.inr ⟨c, Or.inl rfl, rfl⟩
      · intro h; exact Or.inl rfl
    · simp only [if_neg hj, List.mem_cons]
      constructor
      · rintro (h | ⟨c2, hc2, hid⟩)
        · exact Or.inl h
        · exact Or.inr ⟨c2, Or.inr hc2, hid⟩
      · rintro (h | ⟨c2, (rfl | hc2), hid⟩)
        · exact Or.inl h
        · exact absurd hid.symm hj
        · exact Or.inr ⟨c2, hc2, hid⟩

theorem spawnServers_packet (ms : Nat) (l : List Server) :
    ∀ (st : SpawnState) (j : Nat),
    ((l.foldl (spawnServer ms) st).packet_send_map j = true) ↔
    (st.packet_send_map j = true ∨ ∃ s ∈ l, s.id = j) := by
  induction l with
  | nil => intro st j; simp
  | cons s tail ih =>
    intro st j
    rw [List.foldl_cons, ih]
    show ((if j = s.id then true else st.packet_send_map j) = true ∨ _) ↔ _
    by_cases hj : j = s.id
    · subst hj
      simp only [if_pos rfl, List.mem_cons]
      constructor
      · intro h; exact Or.inr ⟨s, Or.inl rfl, rfl⟩
      · intro h; exact Or.inl rfl
    · simp only [if_neg hj, List.mem_cons]
      constructor
      · rintro (h | ⟨s2, hs2, hid⟩)
        · exact Or.inl h
        · exact Or.inr ⟨s2, Or.inr hs2, hid⟩
      · rintro (h | ⟨s2, (rfl | hs2), hid⟩)
        · exact Or.inl h
        · exact absurd hid.symm hj
        · exact Or.inr ⟨s2, hs2, hid⟩

/-- The packet-send table built by the spawn phase stores an entry
exactly for the declared node ids. -/
theorem spawnPhase_packet (mi mc ms : Nat) (cfg : Config) (j : Nat) :
    ((spawnPhase mi mc ms cfg).packet_send_map j = true) ↔ Declared cfg j := by
  rw [spawnPhase, spawnServers_packet, spawnClients_packet, spawnDrones_packet]
  show ((initialSpawnState.packet_send_map j = true ∨ _) ∨ _) ∨ _ ↔ _
  have hinit : initialSpawnState.packet_send_map j = false := rfl
  rw [hinit]
  unfold Declared
  simp [or_assoc]

theorem spawnDrones_type_none (mi : Nat) (l : List Drone) :
    ∀ (st : SpawnState) (j : Nat),
    ((l.foldl (spawnDrone mi) st).topology_type j = NodeTypeM.none) ↔
    (st.topology_type j = NodeTypeM.none ∧ ¬∃ d ∈ l, d.id = j) := by
  induction l with
  | nil => intro st j; simp
  | cons d tail ih =>
    intro st j
    rw [List.foldl_cons, ih]
    show ((if j = d.id then NodeTypeM.drone d.pdr st.index_drone_impl
        else st.topology_type j) = NodeTypeM.none ∧ _) ↔ _
    by_cases hj : j = d.id
    · subst hj
      simp only [if_pos rfl, List.mem_cons]
      constructor
      · rintro ⟨h, -⟩; exact absurd h (by simp)
      · rintro ⟨-, h⟩; exact absurd ⟨d, Or.inl rfl, rfl⟩ h
    · simp only [if_neg hj, List.mem_cons]
      constructor
      · rintro ⟨h1, h2⟩
        refine ⟨h1, ?_⟩
        rintro ⟨d2, (rfl | hd2), hid⟩
        · exact hj hid.symm
        · exact h2 ⟨d2, hd2, hid⟩
      · rintro ⟨h1, h2⟩
        refine ⟨h1, ?_⟩
        rintro ⟨d2, hd2, hid⟩
        exact h2 ⟨d2, Or.inr hd2, hid⟩

theorem spawnClients_type_none (mc : Nat) (l : List Client) :
    ∀ (st : SpawnState) (j : Nat),
    ((l.foldl (spawnClient mc) st).topology_type j = NodeTypeM.none) ↔
    (st.topology_type j = NodeTypeM.none ∧ ¬∃ c ∈ l, c.id = j) := by
  induction l with
  | nil => intro st j; simp
  | cons c tail ih =>
    intro st j
    rw [List.foldl_cons, ih]
    show ((if j = c.id then NodeTypeM.client st.index_client_types
        else st.topology_type j) = NodeTypeM.none ∧ _) ↔ _
    by_cases hj : j = c.id
    · subst hj
      simp only [if_pos rfl, List.mem_cons]
      constructor
      · rintro ⟨h, -⟩; exact absurd h (by simp)
      · rintro ⟨-, h⟩; exact absurd ⟨c, Or.inl rfl, rfl⟩ h
    · simp only [if_neg hj, List.mem_cons]
      constructor
      · rintro ⟨h1, h2⟩
        refine ⟨h1, ?_⟩
        rintro ⟨c2, (rfl | hc2), hid⟩
        · exact hj hid.symm
        · exact h2 ⟨c2, hc2, hid⟩
      · rintro ⟨h1, h2⟩
        refine ⟨h1, ?_⟩
        rintro ⟨c2, hc2, hid⟩
        exact h2 ⟨c2, Or.inr hc2, hid⟩

theorem spawnServers_type_none (ms : Nat) (l : List Server) :
    ∀ (st : SpawnState) (j : Nat),
    ((l.foldl (spawnServer ms) st).topology_type j = NodeTypeM.none) ↔
    (st.topology_type j = NodeTypeM.none ∧ ¬∃ s ∈ l, s.id = j) := by
  induction l with
  | nil => intro st j; simp
  | cons s tail ih =>
    intro st j
    rw [List.foldl_cons, ih]
    show ((if j = s.id then NodeTypeM.server st.index_server_types
        else st.topology_type j) = NodeTypeM.none ∧ _) ↔ _
    by_cases hj : j = s.id
    · subst hj
      simp only [if_pos rfl, List.mem_cons]
      constructor
      · rintro ⟨h, -⟩; exact absurd h (by simp)
      · rintro ⟨-, h⟩; exact absurd ⟨s, Or.inl rfl, rfl⟩ h
    · simp only [if_neg hj, List.mem_cons]
      constructor
      · rintro ⟨h1, h2⟩
        refine ⟨h1, ?_⟩
        rintro ⟨s2, (rfl | hs2), hid⟩
        · exact hj hid.symm
        · exact h2 ⟨s2, hs2, hid⟩
      · rintro ⟨h1, h2⟩
        refine ⟨h1, ?_⟩
        rintro ⟨s2, hs2, hid⟩
        exact h2 ⟨s2, Or.inr hs2, hid⟩

/-- The topology slot types after the spawn phase: a slot is `none`
exactly when no entry of the configuration declares that id. -/
theorem spawnPhase_type_none (mi mc ms : Nat) (cfg : Config) (j : Nat) :
    ((spawnPhase mi mc ms cfg).topology_type j = NodeTypeM.none) ↔ ¬Declared cfg j := by
  rw [spawnPhase, spawnServers_type_none, spawnClients_type_none, spawnDrones_type_none]
  have hinit : initialSpawnState.topology_type j = NodeTypeM.none := rfl
  rw [hinit]
  unfold Declared
  simp [not_or, and_assoc]

theorem wireEntry_nbrs (st : SpawnState) (kind : CommandK) (a : Nat) (nbrs : List Nat) :
    ∀ w : WireState, (wireEntry st kind a nbrs w).topology_nbrs =
      addEdgesFrom w.topology_nbrs a nbrs := by
  induction nbrs with
  | nil => intro w; rfl
  | cons b tail ih =>
    intro w
    rw [show wireEntry st kind a (b :: tail) w = wireEntry st kind a tail
      { topology_nbrs := Graph.insertEdge w.topology_nbrs a b,
        wiring_ok := w.wiring_ok &&
          (if st.senders a = kind then st.packet_send_map b else true) } from rfl]
    rw [ih]
    rfl

theorem wireEntry_ok (st : SpawnState) (kind : CommandK) (a : Nat) (nbrs : List Nat) :
    ∀ w : WireState, ((wireEntry st kind a nbrs w).wiring_ok = true) ↔
      (w.wiring_ok = true ∧
        ∀ nb ∈ nbrs, st.senders a = kind → st.packet_send_map nb = true) := by
  induction nbrs with
  | nil => intro w; simp [wireEntry]
  | cons b tail ih =>
    intro w
    rw [show wireEntry st kind a (b :: tail) w = wireEntry st kind a tail
      { topology_nbrs := Graph.insertEdge w.topology_nbrs a b,
        wiring_ok := w.wiring_ok &&
          (if st.senders a = kind then st.packet_send_map b else true) } from rfl]
    rw [ih]
    show (w.wiring_ok &&
      (if st.senders a = kind then st.packet_send_map b else true)) = true ∧ _ ↔ _
    rw [Bool.and_eq_true]
    constructor
    · rintro ⟨⟨hw, hg⟩, htail⟩
      refine ⟨hw, ?_⟩
      intro nb hnb hk
      rcases List.mem_cons.mp hnb with rfl | hnb2
      · rw [if_pos hk] at hg; exact hg
      · exact htail nb hnb2 hk
    · rintro ⟨hw, hall⟩
      refine ⟨⟨hw, ?_⟩, ?_⟩
      · by_cases hk : st.senders a = kind
        · rw [if_pos hk]; exact hall b (List.mem_cons_self b tail) hk
        · rw [if_neg hk]
      · intro nb hnb hk
        exact hall nb (List.mem_cons_of_mem b hnb) hk

theorem wireDrones_nbrs (st : SpawnState) (l : List Drone) :
    ∀ w : WireState,
    ((l.foldl (fun w2 d => wireEntry st CommandK.droneCommand d.id d.connected_node_ids w2)
        w).topology_nbrs) =
      l.foldl (fun g d => addEdgesFrom g d.id d.connected_node_ids) w.topology_nbrs := by
  induction l with
  | nil => intro w; rfl
  | cons d tail ih =>
    intro w
    rw [List.foldl_cons, List.foldl_cons, ih, wireEntry_nbrs]

theorem wireClients_nbrs (st : SpawnState) (l : List Client) :
    ∀ w : WireState,
    ((l.foldl (fun w2 c => wireEntry st CommandK.clientCommand c.id c.connected_drone_ids w2)
        w).topology_nbrs) =
      l.foldl (fun g c => addEdgesFrom g c.id c.connected_drone_ids) w.topology_nbrs := by
  induction l with
  | nil => intro w; rfl
  | cons c tail ih =>
    intro w
    rw [List.foldl_cons, List.foldl_cons, ih, wireEntry_nbrs]

theorem wireServers_nbrs (st : SpawnState) (l : List Server) :
    ∀ w : WireState,
    ((l.foldl (fun w2 s => wireEntry st CommandK.serverCommand s.id s.connected_drone_ids w2)
        w).topology_nbrs) =
      l.foldl (fun g s => addEdgesFrom g s.id s.connected_drone_ids) w.topology_nbrs := by
  induction l with
  | nil => intro w; rfl
  | cons s tail ih =>
    intro w
    rw [List.foldl_cons, List.foldl_cons, ih, wireEntry_nbrs]

/-- The adjacency bitsets built by the wiring phase coincide with the
graph the validator builds from the declared neighbor lists. -/
theorem wirePhase_nbrs (st : SpawnState) (cfg : Config) :
    (wirePhase st cfg).topology_nbrs = compute_init_graph cfg := by
  rw [wirePhase, wireServers_nbrs, wireClients_nbrs, wireDrones_nbrs]
  rfl

theorem wireDrones_ok (st : SpawnState) (l : List Drone) :
    ∀ w : WireState,
    ((l.foldl (fun w2 d => wireEntry st CommandK.droneCommand d.id d.connected_node_ids w2)
        w).wiring_ok = true) ↔
    (w.wiring_ok = true ∧ ∀ d ∈ l, ∀ nb ∈ d.connected_node_ids,
      st.senders d.id = CommandK.droneCommand → st.packet_send_map nb = true) := by
  induction l with
  | nil => intro w; simp
  | cons d tail ih =>
    intro w
    rw [List.foldl_cons, ih, wireEntry_ok]
    constructor
    · rintro ⟨⟨hw, hd⟩, htail⟩
      refine ⟨hw, ?_⟩
      intro d2 hd2 nb hnb hk
      rcases List.mem_cons.mp hd2 with rfl | hd3
      · exact hd nb hnb hk
      · exact htail d2 hd3 nb hnb hk
    · rintro ⟨hw, hall⟩
      exact ⟨⟨hw, fun nb hnb hk => hall d (List.mem_cons_self d tail) nb hnb hk⟩,
        fun d2 hd2 nb hnb hk => hall d2 (List.mem_cons_of_mem d hd2) nb hnb hk⟩

theorem wireClients_ok (st : SpawnState) (l : List Client) :
    ∀ w : WireState,
    ((l.foldl (fun w2 c => wireEntry st CommandK.clientCommand c.id c.connected_drone_ids w2)
        w).wiring_ok = true) ↔
    (w.wiring_ok = true ∧ ∀ c ∈ l, ∀ nb ∈ c.connected_drone_ids,
      st.senders c.id = CommandK.clientCommand → st.packet_send_map nb = true) := by
  induction l with
  | nil => intro w; simp
  | cons c tail ih =>
    intro w
    rw [List.foldl_cons, ih, wireEntry_ok]
    constructor
    · rintro ⟨⟨hw, hc⟩, htail⟩
      refine ⟨hw, ?_⟩
      intro c2 hc2 nb hnb hk
      rcases List.mem_cons.mp hc2 with rfl | hc3
      · exact hc nb hnb hk
      · exact htail c2 hc3 nb hnb hk
    · rintro ⟨hw, hall⟩
      exact ⟨⟨hw, fun nb hnb hk => hall c (List.mem_cons_self c tail) nb hnb hk⟩,
        fun c2 hc2 nb hnb hk => hall c2 (List.mem_cons_of_mem c hc2) nb hnb hk⟩

theorem wireServers_ok (st : SpawnState) (l : List Server) :
    ∀ w : WireState,
    ((l.foldl (fun w2 s => wireEntry st CommandK.serverCommand s.id s.connected_drone_ids w2)
        w).wiring_ok = true) ↔
    (w.wiring_ok = true ∧ ∀ s ∈ l, ∀ nb ∈ s.connected_drone_ids,
      st.senders s.id = CommandK.serverCommand → st.packet_send_map nb = true) := by
  induction l with
  | nil => intro w; simp
  | cons s tail ih =>
    intro w
    rw [List.foldl_cons, ih, wireEntry_ok]
    constructor
    · rintro ⟨⟨hw, hs⟩, htail⟩
      refine ⟨hw, ?_⟩
      intro s2 hs2 nb hnb hk
      rcases List.mem_cons.mp hs2 with rfl | hs3
      · exact hs nb hnb hk
      · exact htail s2 hs3 nb hnb hk
    · rintro ⟨hw, hall⟩
      exact ⟨⟨hw, fun nb hnb hk => hall s (List.mem_cons_self s tail) nb hnb hk⟩,
        fun s2 hs2 nb hnb hk => hall s2 (List.mem_cons_of_mem s hs2) nb hnb hk⟩

/-- The wiring phase performs every guarded lookup successfully exactly
when, for every declared edge of every kind whose owner's stored command
slot matches the loop's kind, the neighbor's packet-send entry is
present. -/
theorem wirePhase_ok (st : SpawnState) (cfg : Config) :
    ((wirePhase st cfg).wiring_ok = true) ↔
    ((∀ d ∈ cfg.drone, ∀ nb ∈ d.connected_node_ids,
        st.senders d.id = CommandK.droneCommand → st.packet_send_map nb = true) ∧
     (∀ c ∈ cfg.client, ∀ nb ∈ c.connected_drone_ids,
        st.senders c.id = CommandK.clientCommand → st.packet_send_map nb = true) ∧
     (∀ s ∈ cfg.server, ∀ nb ∈ s.connected_drone_ids,
        st.senders s.id = CommandK.serverCommand → st.packet_send_map nb = true)) := by
  rw [wirePhase, wireServers_ok, wireClients_ok, wireDrones_ok]
  have hinit : initialWireState.wiring_ok = true := rfl
  rw [hinit]
  simp [and_assoc]

/-- C6: on a well-formed configuration accepted by `validate_config`,
every neighbor id looked up in `packet_send_map` during the wiring phase
has its packet-send end stored: the spawn phase, which fully precedes
wiring, stores an entry for every declared id, and validation guarantees
every declared edge points at a declared id.  Consequently every guarded
lookup in the three wiring loops succeeds and the `unwrap` on the map
entry can never panic. -/
theorem c6_wiring_unwrap_safe (cfg : Config) (hwf : cfg.Wf) (mi mc ms : Nat)
    (hmi : 0 < mi) (hmc : 0 < mc) (hms : 0 < ms)
    (hok : validate_config cfg = .ok ()) :
    (network_init mi mc ms cfg).wiring_ok = true ∧
    (∀ u v, DeclEdge cfg u v →
      (network_init mi mc ms cfg).packet_send_map v = true) := by
  have hmain : ∀ u v, DeclEdge cfg u v → Declared cfg v := by
    obtain ⟨droneIds, nDrones, ids1, n1, node_ids, n_nodes, h1, h2, h3, h4, h5, h6, h7⟩ :=
      validate_config_ok_elim cfg hok
    obtain ⟨hdiff, hniff, hndr, hnn, hcd, hcn, hbd, hbn⟩ :=
      validate_loops_spec cfg hwf droneIds nDrones ids1 n1 node_ids n_nodes h1 h2 h3
    intro u v he
    have hna : node_ids.contains u = true :=
      (hniff u).mpr (declared_of_declEdge cfg u v he)
    have hcont : (compute_init_graph cfg u).contains v = true :=
      (compute_init_graph_contains cfg u v).mpr he
    have hvlt : v < MAX_NODES := (compute_init_graph_lt cfg hwf u v hcont).2
    have hbidir := (validate_bidirectional_graph_ok (compute_init_graph cfg) node_ids).mp h5
    exact (hniff v).mp (hbidir u hna (hbn u hna) v hcont hvlt).1
  have hpk : ∀ u v, DeclEdge cfg u v →
      (spawnPhase mi mc ms cfg).packet_send_map v = true :=
    fun u v he => (spawnPhase_packet mi mc ms cfg v).mpr (hmain u v he)
  constructor
  · show (wirePhase (spawnPhase mi mc ms cfg) cfg).wiring_ok = true
    rw [wirePhase_ok]
    refine ⟨?_, ?_, ?_⟩
    · intro d hd nb hnb hk
      exact hpk d.id nb (Or.inl ⟨d, hd, rfl, hnb⟩)
    · intro c hc nb hnb hk
      exact hpk c.id nb (Or.inr (Or.inl ⟨c, hc, rfl, hnb⟩))
    · intro s hs nb hnb hk
      exact hpk s.id nb (Or.inr (Or.inr ⟨s, hs, rfl, hnb⟩))
  · intro u v he
    show (spawnPhase mi mc ms cfg).packet_send_map v = true
    exact hpk u v he

theorem c6_wiring_unwrap_safe_witness :
    (network_init 10 2 3 cfgW).wiring_ok = true ∧
    (∀ u v, DeclEdge cfgW u v →
      (network_init 10 2 3 cfgW).packet_send_map v = true) :=
  c6_wiring_unwrap_safe cfgW (by decide) 10 2 3 (by decide) (by decide) (by decide)
    (by decide)

theorem sum_bump (f : Nat → Nat) (m k : Nat) (hk : k < m) :
    (∑ i ∈ Finset.range m, if i = k then f i + 1 else f i) =
      (∑ i ∈ Finset.range m, f i) + 1 := by
  have hsplit : ∀ i, (if i = k then f i + 1 else f i) = f i + (if i = k then 1 else 0) := by
    intro i
    by_cases h : i = k
    · rw [if_pos h, if_pos h]
    · rw [if_neg h, if_neg h, Nat.add_zero]
  rw [Finset.sum_congr rfl (fun i _ => hsplit i), Finset.sum_add_distrib,
    Finset.sum_ite_eq' (Finset.range m) k (fun _ => 1), if_pos (Finset.mem_range.mpr hk)]

theorem spawnDrones_distro_sum (mi : Nat) (hmi : 0 < mi) (l : List Drone) :
    ∀ st : SpawnState, st.index_drone_impl < mi →
    (∑ i ∈ Finset.range mi, (l.foldl (spawnDrone mi) st).drones_distro i) =
      (∑ i ∈ Finset.range mi, st.drones_distro i) + l.length ∧
    (l.foldl (spawnDrone mi) st).index_drone_impl < mi := by
  induction l with
  | nil => intro st h; exact ⟨by simp, h⟩
  | cons d tail ih =>
    intro st h
    rw [List.foldl_cons]
    obtain ⟨hsum, hidx⟩ := ih (spawnDrone mi st d) (Nat.mod_lt _ hmi)
    refine ⟨?_, hidx⟩
    rw [hsum]
    show (∑ i ∈ Finset.range mi,
        (if i = st.index_drone_impl then st.drones_distro i + 1 else st.drones_distro i)) +
        tail.length = _
    rw [sum_bump st.drones_distro mi st.index_drone_impl h, List.length_cons]
    omega

theorem spawnClients_distro_sum (mc : Nat) (hmc : 0 < mc) (l : List Client) :
    ∀ st : SpawnState, st.index_client_types < mc →
    (∑ i ∈ Finset.range mc, (l.foldl (spawnClient mc) st).clients_distro i) =
      (∑ i ∈ Finset.range mc, st.clients_distro i) + l.length ∧
    (l.foldl (spawnClient mc) st).index_client_types < mc := by
  induction l with
  | nil => intro st h; exact ⟨by simp, h⟩
  | cons c tail ih =>
    intro st h
    rw [List.foldl_cons]
    obtain ⟨hsum, hidx⟩ := ih (spawnClient mc st c) (Nat.mod_lt _ hmc)
    refine ⟨?_, hidx⟩
    rw [hsum]
    show (∑ i ∈ Finset.range mc,
        (if i = st.index_client_types then st.clients_distro i + 1 else st.clients_distro i)) +
        tail.length = _
    rw [sum_bump st.clients_distro mc st.index_client_types h, List.length_cons]
    omega

theorem spawnServers_distro_sum (ms : Nat) (hms : 0 < ms) (l : List Server) :
    ∀ st : SpawnState, st.index_server_types < ms →
    (∑ i ∈ Finset.range ms, (l.foldl (spawnServer ms) st).servers_distro i) =
      (∑ i ∈ Finset.range ms, st.servers_distro i) + l.length ∧
    (l.foldl (spawnServer ms) st).index_server_types < ms := by
  induction l with
  | nil => intro st h; exact ⟨by simp, h⟩
  | cons s tail ih =>
    intro st h
    rw [List.foldl_cons]
    obtain ⟨hsum, hidx⟩ := ih (spawnServer ms st s) (Nat.mod_lt _ hms)
    refine ⟨?_, hidx⟩
    rw [hsum]
    show (∑ i ∈ Finset.range ms,
        (if i = st.index_server_types then st.servers_distro i + 1 else st.servers_distro i)) +
        tail.length = _
    rw [sum_bump st.servers_distro ms st.index_server_types h, List.length_cons]
    omega

theorem spawnDrones_preserves (mi : Nat) (l : List Drone) :
    ∀ st : SpawnState,
    (l.foldl (spawnDrone mi) st).clients_distro = st.clients_distro ∧
    (l.foldl (spawnDrone mi) st).servers_distro = st.servers_distro ∧
    (l.foldl (spawnDrone mi) st).index_client_types = st.index_client_types ∧
    (l.foldl (spawnDrone mi) st).index_server_types = st.index_server_types := by
  induction l with
  | nil => intro st; exact ⟨rfl, rfl, rfl, rfl⟩
  | cons d tail ih =>
    intro st
    rw [List.foldl_cons]
    exact ih (spawnDrone mi st d)

theorem spawnClients_preserves (mc : Nat) (l : List Client) :
    ∀ st : SpawnState,
    (l.foldl (spawnClient mc) st).drones_distro = st.drones_distro ∧
    (l.foldl (spawnClient mc) st).servers_distro = st.servers_distro ∧
    (l.foldl (spawnClient mc) st).index_server_types = st.index_server_types := by
  induction l with
  | nil => intro st; exact ⟨rfl, rfl, rfl⟩
  | cons c tail ih =>
    intro st
    rw [List.foldl_cons]
    exact ih (spawnClient mc st c)

theorem spawnServers_preserves (ms : Nat) (l : List Server) :
    ∀ st : SpawnState,
    (l.foldl (spawnServer ms) st).drones_distro = st.drones_distro ∧
    (l.foldl (spawnServer ms) st).clients_distro = st.clients_distro := by
  induction l with
  | nil => intro st; exact ⟨rfl, rfl⟩
  | cons s tail ih =>
    intro st
    rw [List.foldl_cons]
    exact ih (spawnServer ms st s)

/-- C9: after `network_init` runs on any well-formed configuration, the
drone-variant counters sum to the number of drones, the client-type
counters to the number of clients, and the server-type counters to the
number of servers (the variant pools `MAX_IMPL`, `MAX_CLIENT_TYPES` and
`MAX_SERVER_TYPES` are external positive constants). -/
theorem c9_distro_sums (cfg : Config) (hwf : cfg.Wf) (mi mc ms : Nat)
    (hmi : 0 < mi) (hmc : 0 < mc) (hms : 0 < ms) :
    (∑ i ∈ Finset.range mi, (network_init mi mc ms cfg).drones_distro i) =
      cfg.drone.length ∧
    (∑ i ∈ Finset.range mc, (network_init mi mc ms cfg).clients_distro i) =
      cfg.client.length ∧
    (∑ i ∈ Finset.range ms, (network_init mi mc ms cfg).servers_distro i) =
      cfg.server.length := by
  have hd0 : initialSpawnState.index_drone_impl < mi := hmi
  obtain ⟨hsumd, hidxd⟩ := spawnDrones_distro_sum mi hmi cfg.drone initialSpawnState hd0
  obtain ⟨hp1c, hp1s, hp1ic, hp1is⟩ := spawnDrones_preserves mi cfg.drone initialSpawnState
  have hc0 : (cfg.drone.foldl (spawnDrone mi) initialSpawnState).index_client_types < mc := by
    rw [hp1ic]
    exact hmc
  obtain ⟨hsumc, hidxc⟩ := spawnClients_distro_sum mc hmc cfg.client
    (cfg.drone.foldl (spawnDrone mi) initialSpawnState) hc0
  obtain ⟨hp2d, hp2s, hp2is⟩ := spawnClients_preserves mc cfg.client
    (cfg.drone.foldl (spawnDrone mi) initialSpawnState)
  have hs0 : (cfg.client.foldl (spawnClient mc)
      (cfg.drone.foldl (spawnDrone mi) initialSpawnState)).index_server_types < ms := by
    rw [hp2is, hp1is]
    exact hms
  obtain ⟨hsums, hidxs⟩ := spawnServers_distro_sum ms hms cfg.server
    (cfg.client.foldl (spawnClient mc) (cfg.drone.foldl (spawnDrone mi) initialSpawnState)) hs0
  obtain ⟨hp3d, hp3c⟩ := spawnServers_preserves ms cfg.server
    (cfg.client.foldl (spawnClient mc) (cfg.drone.foldl (spawnDrone mi) initialSpawnState))
  have hzero_d : (∑ i ∈ Finset.range mi, initialSpawnState.drones_distro i) = 0 := by
    simp [initialSpawnState]
  have hzero_c : (∑ i ∈ Finset.range mc,
      (cfg.drone.foldl (spawnDrone mi) initialSpawnState).clients_distro i) = 0 := by
    rw [hp1c]; simp [initialSpawnState]
  have hzero_s : (∑ i ∈ Finset.range ms,
      (cfg.client.foldl (spawnClient mc)
        (cfg.drone.foldl (spawnDrone mi) initialSpawnState)).servers_distro i) = 0 := by
    rw [hp2s, hp1s]; simp [initialSpawnState]
  refine ⟨?_, ?_, ?_⟩
  · show (∑ i ∈ Finset.range mi, (cfg.server.foldl (spawnServer ms)
      (cfg.client.foldl (spawnClient mc)
        (cfg.drone.foldl (spawnDrone mi) initialSpawnState))).drones_distro i) =
      cfg.drone.length
    rw [hp3d, hp2d, hsumd, hzero_d]
    omega
  · show (∑ i ∈ Finset.range mc, (cfg.server.foldl (spawnServer ms)
      (cfg.client.foldl (spawnClient mc)
        (cfg.drone.foldl (spawnDrone mi) initialSpawnState))).clients_distro i) =
      cfg.client.length
    rw [hp3c, hsumc, hzero_c]
    omega
  · show (∑ i ∈ Finset.range ms, (cfg.server.foldl (spawnServer ms)
      (cfg.client.foldl (spawnClient mc)
        (cfg.drone.foldl (spawnDrone mi) initialSpawnState))).servers_distro i) =
      cfg.server.length
    rw [hsums, hzero_s]
    omega

theorem c9_distro_sums_witness :
    (∑ i ∈ Finset.range 10, (network_init 10 2 3 cfgW).drones_distro i) =
      cfgW.drone.length ∧
    (∑ i ∈ Finset.range 2, (network_init 10 2 3 cfgW).clients_distro i) =
      cfgW.client.length ∧
    (∑ i ∈ Finset.range 3, (network_init 10 2 3 cfgW).servers_distro i) =
      cfgW.server.length :=
  c9_distro_sums cfgW (by decide) 10 2 3 (by decide) (by decide) (by decide)

theorem BitSet.contains_insert_false {s : BitSet} {x y : Nat}
    (h : (s.insert x).contains y = false) : s.contains y = false ∧ y ≠ x := by
  constructor
  · rcases hy : s.contains y with _ | _
    · rfl
    · have : (s.insert x).contains y = true := (BitSet.contains_insert s x y).mpr (Or.inr hy)
      rw [h] at this
      exact Bool.noConfusion this
  · intro hxy
    have : (s.insert x).contains y = true := (BitSet.contains_insert s x y).mpr (Or.inl hxy)
    rw [h] at this
    exact Bool.noConfusion this

theorem validate_drones_loop_fresh_nodup (l : List Drone) :
    ∀ (ids : BitSet) (n : Nat) (ids' : BitSet) (n' : Nat),
    validate_drones_loop l ids n = .ok (ids', n') →
    (∀ d ∈ l, ids.contains d.id = false) ∧ (l.map Drone.id).Nodup := by
  induction l with
  | nil =>
    intro ids n ids' n' h
    exact ⟨fun d hd => absurd hd (List.not_mem_nil d), List.nodup_nil⟩
  | cons d tail ih =>
    intro ids n ids' n' h
    simp only [validate_drones_loop] at h
    rcases hv : validate_drone d with e | u
    · rw [hv] at h; exact Except.noConfusion h
    · rw [hv] at h
      rcases u
      rcases hdup : ids.contains d.id with _ | _ <;> rw [hdup] at h
      · simp only [Bool.false_eq_true, if_false] at h
        obtain ⟨hfresh, hnodup⟩ := ih (ids.insert d.id) (n + 1) ids' n' h
        constructor
        · intro d2 hd2
          rcases List.mem_cons.mp hd2 with rfl | hd3
          · exact hdup
          · exact (BitSet.contains_insert_false (hfresh d2 hd3)).1
        · rw [List.map_cons, List.nodup_cons]
          refine ⟨?_, hnodup⟩
          intro hmem
          obtain ⟨d2, hd2, hid⟩ := List.mem_map.mp hmem
          exact (BitSet.contains_insert_false (hfresh d2 hd2)).2 hid
      · simp only [if_true] at h; exact Except.noConfusion h

theorem validate_clients_loop_fresh_nodup (l : List Client) :
    ∀ (ids : BitSet) (n : Nat) (ids' : BitSet) (n' : Nat),
    validate_clients_loop l ids n = .ok (ids', n') →
    (∀ c ∈ l, ids.contains c.id = false) ∧ (l.map Client.id).Nodup := by
  induction l with
  | nil =>
    intro ids n ids' n' h
    exact ⟨fun c hc => absurd hc (List.not_mem_nil c), List.nodup_nil⟩
  | cons c tail ih =>
    intro ids n ids' n' h
    simp only [validate_clients_loop] at h
    rcases hv : validate_client c with e | u
    · rw [hv] at h; exact Except.noConfusion h
    · rw [hv] at h
      rcases u
      rcases hdup : ids.contains c.id with _ | _ <;> rw [hdup] at h
      · simp only [Bool.false_eq_true, if_false] at h
        obtain ⟨hfresh, hnodup⟩ := ih (ids.insert c.id) (n + 1) ids' n' h
        constructor
        · intro c2 hc2
          rcases List.mem_cons.mp hc2 with rfl | hc3
          · exact hdup
          · exact (BitSet.contains_insert_false (hfresh c2 hc3)).1
        · rw [List.map_cons, List.nodup_cons]
          refine ⟨?_, hnodup⟩
          intro hmem
          obtain ⟨c2, hc2, hid⟩ := List.mem_map.mp hmem
          exact (BitSet.contains_insert_false (hfresh c2 hc2)).2 hid
      · simp only [if_true] at h; exact Except.noConfusion h

theorem validate_servers_loop_fresh_nodup (l : List Server) :
    ∀ (ids : BitSet) (n : Nat) (ids' : BitSet) (n' : Nat),
    validate_servers_loop l ids n = .ok (ids', n') →
    (∀ s ∈ l, ids.contains s.id = false) ∧ (l.map Server.id).Nodup := by
  induction l with
  | nil =>
    intro ids n ids' n' h
    exact ⟨fun s hs => absurd hs (List.not_mem_nil s), List.nodup_nil⟩
  | cons s tail ih =>
    intro ids n ids' n' h
    simp only [validate_servers_loop] at h
    rcases hv : validate_server s with e | u
    · rw [hv] at h; exact Except.noConfusion h
    · rw [hv] at h
      rcases u
      rcases hdup : ids.contains s.id with _ | _ <;> rw [hdup] at h
      · simp only [Bool.false_eq_true, if_false] at h
        obtain ⟨hfresh, hnodup⟩ := ih (ids.insert s.id) (n + 1) ids' n' h
        constructor
        · intro s2 hs2
          rcases List.mem_cons.mp hs2 with rfl | hs3
          · exact hdup
          · exact (BitSet.contains_insert_false (hfresh s2 hs3)).1
        · rw [List.map_cons, List.nodup_cons]
          refine ⟨?_, hnodup⟩
          intro hmem
          obtain ⟨s2, hs2, hid⟩ := List.mem_map.mp hmem
          exact (BitSet.contains_insert_false (hfresh s2 hs2)).2 hid
      · simp only [if_true] at h; exact Except.noConfusion h

/-- On an accepted configuration every id is declared by exactly one
entry, so a declared edge out of an entry's id comes from that entry's
own neighbor list. -/
theorem declEdge_collapse (cfg : Config) (hok : validate_config cfg = .ok ()) :
    (∀ d ∈ cfg.drone, ∀ j, (DeclEdge cfg d.id j ↔ j ∈ d.connected_node_ids)) ∧
    (∀ c ∈ cfg.client, ∀ j, (DeclEdge cfg c.id j ↔ j ∈ c.connected_drone_ids)) ∧
    (∀ s ∈ cfg.server, ∀ j, (DeclEdge cfg s.id j ↔ j ∈ s.connected_drone_ids)) := by
  obtain ⟨droneIds, nDrones, ids1, n1, node_ids, n_nodes, h1, h2, h3, h4, h5, h6, h7⟩ :=
    validate_config_ok_elim cfg hok
  obtain ⟨hfr1, hnd1⟩ := validate_drones_loop_fresh_nodup cfg.drone _ _ _ _ h1
  obtain ⟨hfr2, hnd2⟩ := validate_clients_loop_fresh_nodup cfg.client _ _ _ _ h2
  obtain ⟨hfr3, hnd3⟩ := validate_servers_loop_fresh_nodup cfg.server _ _ _ _ h3
  obtain ⟨hm1, hln1⟩ := validate_drones_loop_ok cfg.drone _ _ _ _ h1
  obtain ⟨hm2, hln2⟩ := validate_clients_loop_ok cfg.client _ _ _ _ h2
  have hdinj := List.inj_on_of_nodup_map hnd1
  have hcinj := List.inj_on_of_nodup_map hnd2
  have hsinj := List.inj_on_of_nodup_map hnd3
  have hcd : ∀ c ∈ cfg.client, ∀ d ∈ cfg.drone, d.id ≠ c.id := by
    intro c hc d hd heq
    have hfc := hfr2 c hc
    have hdid : droneIds.contains c.id = true := (hm1 c.id).mpr (Or.inr ⟨d, hd, heq⟩)
    rw [hdid] at hfc
    exact Bool.noConfusion hfc
  have hsd : ∀ s ∈ cfg.server, ∀ d ∈ cfg.drone, d.id ≠ s.id := by
    intro s hs d hd heq
    have hfs := hfr3 s hs
    have hdid : droneIds.contains s.id = true := (hm1 s.id).mpr (Or.inr ⟨d, hd, heq⟩)
    have : ids1.contains s.id = true := (hm2 s.id).mpr (Or.inl hdid)
    rw [this] at hfs
    exact Bool.noConfusion hfs
  have hsc : ∀ s ∈ cfg.server, ∀ c ∈ cfg.client, c.id ≠ s.id := by
    intro s hs c hc heq
    have hfs := hfr3 s hs
    have : ids1.contains s.id = true := (hm2 s.id).mpr (Or.inr ⟨c, hc, heq⟩)
    rw [this] at hfs
    exact Bool.noConfusion hfs
  refine ⟨?_, ?_, ?_⟩
  · intro d hd j
    constructor
    · rintro (⟨d2, hd2, hid, hj⟩ | ⟨c, hc, hid, hj⟩ | ⟨s, hs, hid, hj⟩)
      · rw [hdinj hd2 hd hid] at hj; exact hj
      · exact absurd hid.symm (hcd c hc d hd)
      · exact absurd hid.symm (hsd s hs d hd)
    · intro hj
      exact Or.inl ⟨d, hd, rfl, hj⟩
  · intro c hc j
    constructor
    · rintro (⟨d2, hd2, hid, hj⟩ | ⟨c2, hc2, hid, hj⟩ | ⟨s, hs, hid, hj⟩)
      · exact absurd hid (hcd c hc d2 hd2)
      · rw [hcinj hc2 hc hid] at hj; exact hj
      · exact absurd hid.symm (hsc s hs c hc)
    · intro hj
      exact Or.inr (Or.inl ⟨c, hc, rfl, hj⟩)
  · intro s hs j
    constructor
    · rintro (⟨d2, hd2, hid, hj⟩ | ⟨c2, hc2, hid, hj⟩ | ⟨s2, hs2, hid, hj⟩)
      · exact absurd hid (hsd s hs d2 hd2)
      · exact absurd hid (hsc s hs c2 hc2)
      · rw [hsinj hs2 hs hid] at hj; exact hj
    · intro hj
      exact Or.inr (Or.inr ⟨s, hs, rfl, hj⟩)

/-- C5: after `network_init` on a well-formed configuration accepted by
`validate_config`, a topology slot is non-`none` exactly when its index
is a declared node id, and each declared node's neighbor bitset contains
exactly the ids of that node's declared neighbor list (undeclared slots
keep an empty bitset). -/
theorem c5_topology_invariant (cfg : Config) (hwf : cfg.Wf) (mi mc ms : Nat)
    (hmi : 0 < mi) (hmc : 0 < mc) (hms : 0 < ms)
    (hok : validate_config cfg = .ok ()) :
    (∀ i, ((network_init mi mc ms cfg).topology_type i ≠ NodeTypeM.none ↔
      Declared cfg i)) ∧
    (∀ d ∈ cfg.drone, ∀ j,
      (((network_init mi mc ms cfg).topology_nbrs d.id).contains j = true ↔
        j ∈ d.connected_node_ids)) ∧
    (∀ c ∈ cfg.client, ∀ j,
      (((network_init mi mc ms cfg).topology_nbrs c.id).contains j = true ↔
        j ∈ c.connected_drone_ids)) ∧
    (∀ s ∈ cfg.server, ∀ j,
      (((network_init mi mc ms cfg).topology_nbrs s.id).contains j = true ↔
        j ∈ s.connected_drone_ids)) ∧
    (∀ i, ¬Declared cfg i →
      ∀ j, ((network_init mi mc ms cfg).topology_nbrs i).contains j = false) := by
  obtain ⟨hD, hC, hS⟩ := declEdge_collapse cfg hok
  have hnbrs : (network_init mi mc ms cfg).topology_nbrs = compute_init_graph cfg :=
    wirePhase_nbrs (spawnPhase mi mc ms cfg) cfg
  refine ⟨?_, ?_, ?_, ?_, ?_⟩
  · intro i
    show (spawnPhase mi mc ms cfg).topology_type i ≠ NodeTypeM.none ↔ _
    constructor
    · intro h
      by_contra hd
      exact h ((spawnPhase_type_none mi mc ms cfg i).mpr hd)
    · intro h h2
      exact (spawnPhase_type_none mi mc ms cfg i).mp h2 h
  · intro d hd j
    rw [hnbrs, compute_init_graph_contains]
    exact hD d hd j
  · intro c hc j
    rw [hnbrs, compute_init_graph_contains]
    exact hC c hc j
  · intro s hs j
    rw [hnbrs, compute_init_graph_contains]
    exact hS s hs j
  · intro i hni j
    rw [hnbrs]
    rcases hcj : (compute_init_graph cfg i).contains j with _ | _
    · rfl
    · exact absurd (declared_of_declEdge cfg i j
        ((compute_init_graph_contains cfg i j).mp hcj)) hni

theorem c5_topology_invariant_witness :
    (∀ i, ((network_init 10 2 3 cfgW).topology_type i ≠ NodeTypeM.none ↔
      Declared cfgW i)) ∧
    (∀ d ∈ cfgW.drone, ∀ j,
      (((network_init 10 2 3 cfgW).topology_nbrs d.id).contains j = true ↔
        j ∈ d.connected_node_ids)) ∧
    (∀ c ∈ cfgW.client, ∀ j,
      (((network_init 10 2 3 cfgW).topology_nbrs c.id).contains j = true ↔
        j ∈ c.connected_drone_ids)) ∧
    (∀ s ∈ cfgW.server, ∀ j,
      (((network_init 10 2 3 cfgW).topology_nbrs s.id).contains j = true ↔
        j ∈ s.connected_drone_ids)) ∧
    (∀ i, ¬Declared cfgW i →
      ∀ j, ((network_init 10 2 3 cfgW).topology_nbrs i).contains j = false) :=
  c5_topology_invariant cfgW (by decide) 10 2 3 (by decide) (by decide) (by decide)
    (by decide)
